import Mathlib

/-!
Verification of the OGpredict operations-planning core (ephemeris engine,
territory labeler, POI selector, geo primitives, time utilities, CSV export).

The C sources are shallowly embedded: C `double` arithmetic is modelled by
exact rational arithmetic over `ℚ`, machine integers by `ℤ`/`ℕ`, C strings by
`List Char`, and fallible code by `Option`/`Except`.  Transcendental helpers
(`cos`, haversine, azimuth) that only flow into output fields, never into
control flow, are taken as parameters of the embedding so that every
definition stays executable.
-/

namespace OGpredict

/-- C truncation toward zero (the rounding used by C `fmod`). -/
def ctrunc (q : ℚ) : ℤ := if 0 ≤ q then ⌊q⌋ else -⌊-q⌋

/-- C `fmod(x, y) = x - y * trunc(x / y)`. -/
def cfmod (x y : ℚ) : ℚ := x - y * ctrunc (x / y)

/-- The `norm_lon` helper of `Logic_Country_Filter.c` / `Logic_POI_Filter.c`
(Windows tree): `x = fmod(lon + 180, 360); if (x < 0) x += 360; return x - 180;`
normalizing a longitude into `[-180, 180)`.  (The C temporary `x` is inlined.) -/
def normLon (lon : ℚ) : ℚ :=
  (if cfmod (lon + 180) 360 < 0 then cfmod (lon + 180) 360 + 360
   else cfmod (lon + 180) 360) - 180

lemma normLon_eq_fract (lon : ℚ) :
    normLon lon = 360 * Int.fract ((lon + 180) / 360) - 180 := by
  unfold normLon cfmod ctrunc
  set q : ℚ := (lon + 180) / 360 with hq
  have hy : lon + 180 = 360 * q := by rw [hq]; field_simp
  by_cases h0 : 0 ≤ q
  · rw [if_pos h0]
    have hx : lon + 180 - 360 * ((⌊q⌋ : ℤ) : ℚ) = 360 * Int.fract q := by
      rw [hy, Int.fract]; ring
    rw [hx, if_neg (not_lt.mpr (mul_nonneg (by norm_num) (Int.fract_nonneg q)))]
  · rw [if_neg h0]
    push_neg at h0
    by_cases hz : Int.fract q = 0
    · have hfl : ((⌊q⌋ : ℤ) : ℚ) = q := by
        rw [Int.fract] at hz; linarith
      have hnegfl : ⌊-q⌋ = -⌊q⌋ := by
        rw [show -q = ((-⌊q⌋ : ℤ) : ℚ) by push_cast; linarith]
        exact Int.floor_intCast _
      have hx0 : lon + 180 - 360 * ((-⌊-q⌋ : ℤ) : ℚ) = 0 := by
        rw [hnegfl]; push_cast; rw [neg_neg, hfl]; linarith
      rw [hx0, if_neg (lt_irrefl 0), hz]
      ring
    · have hfr0 : 0 < Int.fract q :=
        lt_of_le_of_ne (Int.fract_nonneg q) (Ne.symm hz)
      have hfr1 : Int.fract q < 1 := Int.fract_lt_one q
      have hq_gt : ((⌊q⌋ : ℤ) : ℚ) < q := by
        rw [Int.fract] at hfr0; linarith
      have hq_le : q ≤ ((⌊q⌋ : ℤ) : ℚ) + 1 := by
        rw [Int.fract] at hfr1; linarith
      have hnegfl : ⌊-q⌋ = -⌊q⌋ - 1 := by
        apply Int.floor_eq_iff.mpr
        constructor
        · push_cast; linarith
        · push_cast; linarith
      have hx : lon + 180 - 360 * ((-⌊-q⌋ : ℤ) : ℚ) = 360 * Int.fract q - 360 := by
        rw [hnegfl, Int.fract]; push_cast; linarith
      rw [hx, if_pos (by linarith)]
      ring

lemma normLon_add_360 (lon : ℚ) : normLon (lon + 360) = normLon lon := by
  rw [normLon_eq_fract, normLon_eq_fract]
  have h : (lon + 360 + 180) / 360 = (lon + 180) / 360 + 1 := by ring
  rw [h, Int.fract_add_one]

lemma normLon_lb (lon : ℚ) : -180 ≤ normLon lon := by
  rw [normLon_eq_fract]
  have := Int.fract_nonneg ((lon + 180) / 360)
  linarith

lemma normLon_ub (lon : ℚ) : normLon lon < 180 := by
  rw [normLon_eq_fract]
  have := Int.fract_lt_one ((lon + 180) / 360)
  linarith

lemma normLon_idem (lon : ℚ) (h1 : -180 ≤ lon) (h2 : lon < 180) :
    normLon lon = lon := by
  rw [normLon_eq_fract]
  have hmem : (lon + 180) / 360 ∈ Set.Ico (0 : ℚ) 1 := by
    constructor
    · apply div_nonneg (by linarith) (by norm_num)
    · rw [div_lt_one (by norm_num)]; linarith
  rw [Int.fract_eq_self.mpr hmem]
  field_simp

/-- Inclusive tolerance `EPS = 1e-12` used by the rectangle membership tests. -/
def EPS : ℚ := 1 / 1000000000000

/-- The `TileRect` record of the Windows filter modules: axis-aligned
rectangle bounds in degrees. -/
structure TileRect where
  lat_min : ℚ
  lat_max : ℚ
  lon_min : ℚ
  lon_max : ℚ
deriving Repr, DecidableEq

/-- The `rect_contains` test of `Logic_Country_Filter.c` / `Logic_POI_Filter.c`:
latitude interval test with inclusive tolerance `EPS`, then longitude interval
test on normalized longitudes; if the normalized interval wraps
(`a > b`), membership in the union `[a, 180) ∪ [-180, b]` is tested. -/
def rect_contains (R : TileRect) (lat lon : ℚ) : Bool :=
  if lat < R.lat_min - EPS ∨ lat > R.lat_max + EPS then false
  else if normLon R.lon_min ≤ normLon R.lon_max then
    decide (normLon R.lon_min - EPS ≤ normLon lon ∧
            normLon lon ≤ normLon R.lon_max + EPS)
  else
    decide (normLon R.lon_min - EPS ≤ normLon lon ∨
            normLon lon ≤ normLon R.lon_max + EPS)

/-- The dateline-wrapping POI rectangle of the spec's scenario 2:
latitude `[-5, 5]`, longitude from `170` wrapping to `-170`. -/
def poiWrapRect : TileRect := ⟨-5, 5, 170, -170⟩

/-- C3: for any rectangle spanning the dateline, rectangle membership is
invariant under adding 360° to the longitude (the test normalizes first), and
on the POI rectangle `[-5,5] × [170 → -170]` the points `(0, 175)` and
`(0, -175)` are inside while `(0, 0)` is outside. -/
theorem rect_contains_wrap_symmetry (R : TileRect) (lat lon : ℚ)
    (hwrap : normLon R.lon_max < normLon R.lon_min) :
    rect_contains R lat lon = rect_contains R lat (lon + 360) ∧
    rect_contains poiWrapRect 0 175 = true ∧
    rect_contains poiWrapRect 0 (-175) = true ∧
    rect_contains poiWrapRect 0 0 = false := by
  have _hw := hwrap
  refine ⟨?_, ?_, ?_, ?_⟩
  · unfold rect_contains
    rw [normLon_add_360]
  · norm_num [rect_contains, poiWrapRect, normLon, cfmod, ctrunc, EPS]
  · norm_num [rect_contains, poiWrapRect, normLon, cfmod, ctrunc, EPS]
  · norm_num [rect_contains, poiWrapRect, normLon, cfmod, ctrunc, EPS]

/-- Witness for C3 at the concrete wrapping rectangle and longitude 12. -/
theorem rect_contains_wrap_symmetry_witness :
    normLon poiWrapRect.lon_max < normLon poiWrapRect.lon_min ∧
    (rect_contains poiWrapRect 0 12 = rect_contains poiWrapRect 0 (12 + 360) ∧
     rect_contains poiWrapRect 0 175 = true ∧
     rect_contains poiWrapRect 0 (-175) = true ∧
     rect_contains poiWrapRect 0 0 = false) :=
  ⟨by norm_num [poiWrapRect, normLon, cfmod, ctrunc],
   rect_contains_wrap_symmetry poiWrapRect 0 12
     (by norm_num [poiWrapRect, normLon, cfmod, ctrunc])⟩

/-! ### Spatial index (1°×1° grid), `latlon_to_cell`, `grid_insert_bbox` -/

/-- Latitude clamp to `[-90, 90]` performed at the top of `latlon_to_cell`. -/
def clampLat (lat : ℚ) : ℚ := if lat > 90 then 90 else if lat < -90 then -90 else lat

/-- Integer index clamp of `latlon_to_cell` (explicit low/high bounds). -/
def clampZ (v lo hi : ℤ) : ℤ := if v < lo then lo else if v > hi then hi else v

/-- Row component of `latlon_to_cell` (cell size 1°, rows clamped to `[0,179]`). -/
def latCell (lat : ℚ) : ℤ := clampZ ⌊clampLat lat + 90⌋ 0 179

/-- Column of a longitude already normalized into `[-180, 180)`. -/
def lonCellVal (L : ℚ) : ℤ := clampZ ⌊L + 180⌋ 0 359

/-- Column component of `latlon_to_cell` (normalizes, columns clamped to
`[0,359]`). -/
def lonCell (lon : ℚ) : ℤ := lonCellVal (normLon lon)

/-- The full `latlon_to_cell(lat, lon, &r, &c)` mapping. -/
def latlonToCell (lat lon : ℚ) : ℤ × ℤ := (latCell lat, lonCell lon)

/-- Cell membership produced by `grid_insert_bbox`: a rectangle is indexed
into the 2-D range of cells spanned by its corners; a dateline-wrapping
rectangle (`a > b` after normalization) is split into the spans
`[a, 180 - 1e-9]` and `[-180, b]`. -/
def insertedCells (R : TileRect) (cell : ℤ × ℤ) : Bool :=
  if normLon R.lon_min ≤ normLon R.lon_max then
    decide (latCell R.lat_min ≤ cell.1 ∧ cell.1 ≤ latCell R.lat_max ∧
            lonCell (normLon R.lon_min) ≤ cell.2 ∧
            cell.2 ≤ lonCell (normLon R.lon_max))
  else
    decide ((latCell R.lat_min ≤ cell.1 ∧ cell.1 ≤ latCell R.lat_max ∧
             lonCell (normLon R.lon_min) ≤ cell.2 ∧
             cell.2 ≤ lonCell (180 - 1/1000000000)) ∨
            (latCell R.lat_min ≤ cell.1 ∧ cell.1 ≤ latCell R.lat_max ∧
             lonCell (-180) ≤ cell.2 ∧ cell.2 ≤ lonCell (normLon R.lon_max)))

/-- The 3×3 neighborhood probed at query time (`row±1`, `col±1`). -/
def probeOffsets : List (ℤ × ℤ) :=
  [(-1, -1), (-1, 0), (-1, 1), (0, -1), (0, 0), (0, 1), (1, -1), (1, 0), (1, 1)]

/-- Whether the 3×3 probe at a query point reaches a bucket holding the
rectangle `R` (as in `ephemeris_filter_by_polygons` / `lp_filter_points_by_tiles`). -/
def probeFindsRect (R : TileRect) (lat lon : ℚ) : Bool :=
  probeOffsets.any fun d => insertedCells R (latCell lat + d.1, lonCell lon + d.2)

/-- The full grid query over a dataset: a hit is reported when some rectangle
reachable through the 3×3 probe contains the point (the C loop short-circuits
on the first such rectangle). -/
def gridQueryHit (rects : List TileRect) (lat lon : ℚ) : Bool :=
  rects.any fun R => probeFindsRect R lat lon && rect_contains R lat lon

lemma clampLat_sub_le {x y d : ℚ} (hd : 0 ≤ d) (h : y - d ≤ x) :
    clampLat y - d ≤ clampLat x := by
  unfold clampLat; split_ifs <;> linarith

lemma clampLat_le_add {x y d : ℚ} (hd : 0 ≤ d) (h : x ≤ y + d) :
    clampLat x ≤ clampLat y + d := by
  unfold clampLat; split_ifs <;> linarith

lemma floor_sub_one_le {x y : ℚ} (h : y - 1 ≤ x) : ⌊y⌋ - 1 ≤ ⌊x⌋ := by
  have h1 : ⌊y - (1 : ℤ)⌋ ≤ ⌊x⌋ := Int.floor_le_floor (by push_cast; linarith)
  rw [Int.floor_sub_int] at h1
  omega

lemma floor_le_add_one {x y : ℚ} (h : x ≤ y + 1) : ⌊x⌋ ≤ ⌊y⌋ + 1 := by
  have h1 : ⌊x⌋ ≤ ⌊y + (1 : ℤ)⌋ := Int.floor_le_floor (by push_cast; linarith)
  rw [Int.floor_add_int] at h1
  omega

lemma clampZ_sub_one_le {m n lo hi : ℤ} (hlh : lo ≤ hi) (h : n - 1 ≤ m) :
    clampZ n lo hi - 1 ≤ clampZ m lo hi := by
  unfold clampZ; split_ifs <;> omega

lemma clampZ_le_add_one {m n lo hi : ℤ} (hlh : lo ≤ hi) (h : m ≤ n + 1) :
    clampZ m lo hi ≤ clampZ n lo hi + 1 := by
  unfold clampZ; split_ifs <;> omega

lemma clampZ_mono {m n lo hi : ℤ} (hlh : lo ≤ hi) (h : n ≤ m) :
    clampZ n lo hi ≤ clampZ m lo hi := by
  unfold clampZ; split_ifs <;> omega

lemma clampZ_lb {v lo hi : ℤ} (h : lo ≤ hi) : lo ≤ clampZ v lo hi := by
  unfold clampZ; split_ifs <;> omega

lemma clampZ_ub {v lo hi : ℤ} (h : lo ≤ hi) : clampZ v lo hi ≤ hi := by
  unfold clampZ; split_ifs <;> omega

lemma EPS_nonneg : (0 : ℚ) ≤ EPS := by norm_num [EPS]

lemma EPS_le_one : EPS ≤ (1 : ℚ) := by norm_num [EPS]

lemma latCell_near_lb {x lat : ℚ} (h : x - EPS ≤ lat) :
    latCell x - 1 ≤ latCell lat := by
  have h1 : clampLat x - EPS ≤ clampLat lat := clampLat_sub_le EPS_nonneg h
  have h2 : ⌊clampLat x + 90⌋ - 1 ≤ ⌊clampLat lat + 90⌋ :=
    floor_sub_one_le (by have := EPS_le_one; linarith)
  exact clampZ_sub_one_le (by norm_num) h2

lemma latCell_near_ub {x lat : ℚ} (h : lat ≤ x + EPS) :
    latCell lat ≤ latCell x + 1 := by
  have h1 : clampLat lat ≤ clampLat x + EPS := clampLat_le_add EPS_nonneg h
  have h2 : ⌊clampLat lat + 90⌋ ≤ ⌊clampLat x + 90⌋ + 1 :=
    floor_le_add_one (by have := EPS_le_one; linarith)
  exact clampZ_le_add_one (by norm_num) h2

lemma latCell_mono {x y : ℚ} (h : x ≤ y) : latCell x ≤ latCell y := by
  have h1 : clampLat x ≤ clampLat y := by
    have := clampLat_sub_le (le_refl (0 : ℚ)) (by linarith : x - 0 ≤ y)
    linarith
  exact clampZ_mono (by norm_num) (Int.floor_le_floor (by linarith))

lemma lonCellVal_near_lb {a L : ℚ} (h : a - EPS ≤ L) :
    lonCellVal a - 1 ≤ lonCellVal L := by
  have h2 : ⌊a + 180⌋ - 1 ≤ ⌊L + 180⌋ :=
    floor_sub_one_le (by have := EPS_le_one; linarith)
  exact clampZ_sub_one_le (by norm_num) h2

lemma lonCellVal_near_ub {b L : ℚ} (h : L ≤ b + EPS) :
    lonCellVal L ≤ lonCellVal b + 1 := by
  have h2 : ⌊L + 180⌋ ≤ ⌊b + 180⌋ + 1 :=
    floor_le_add_one (by have := EPS_le_one; linarith)
  exact clampZ_le_add_one (by norm_num) h2

lemma lonCellVal_mono {x y : ℚ} (h : x ≤ y) : lonCellVal x ≤ lonCellVal y :=
  clampZ_mono (by norm_num) (Int.floor_le_floor (by linarith))

lemma normLon_normLon (lon : ℚ) : normLon (normLon lon) = normLon lon :=
  normLon_idem _ (normLon_lb lon) (normLon_ub lon)

lemma lonCell_normLon (lon : ℚ) : lonCell (normLon lon) = lonCellVal (normLon lon) := by
  unfold lonCell
  rw [normLon_normLon]

lemma lonCellVal_lb (L : ℚ) : 0 ≤ lonCellVal L := clampZ_lb (by norm_num)

lemma lonCellVal_ub (L : ℚ) : lonCellVal L ≤ 359 := clampZ_ub (by norm_num)

/-- Restatement of `rect_contains` as a proposition. -/
lemma rect_contains_iff (R : TileRect) (lat lon : ℚ) :
    rect_contains R lat lon = true ↔
      (R.lat_min - EPS ≤ lat ∧ lat ≤ R.lat_max + EPS) ∧
      ((normLon R.lon_min ≤ normLon R.lon_max ∧
          normLon R.lon_min - EPS ≤ normLon lon ∧
          normLon lon ≤ normLon R.lon_max + EPS) ∨
        (normLon R.lon_max < normLon R.lon_min ∧
          (normLon R.lon_min - EPS ≤ normLon lon ∨
           normLon lon ≤ normLon R.lon_max + EPS))) := by
  unfold rect_contains
  split_ifs with h1 h2
  · simp only [false_iff]
    intro hcon
    rcases h1 with h | h
    · exact absurd hcon.1.1 (by linarith)
    · exact absurd hcon.1.2 (by linarith)
  · push_neg at h1
    simp only [decide_eq_true_eq]
    constructor
    · intro h; exact ⟨⟨by linarith [h1.1], by linarith [h1.2]⟩, Or.inl ⟨h2, h⟩⟩
    · rintro ⟨-, hl | hl⟩
      · exact hl.2
      · exact absurd h2 (not_le.mpr hl.1)
  · push_neg at h1 h2
    simp only [decide_eq_true_eq]
    constructor
    · intro h; exact ⟨⟨by linarith [h1.1], by linarith [h1.2]⟩, Or.inr ⟨h2, h⟩⟩
    · rintro ⟨-, hl | hl⟩
      · exact absurd hl.1 (not_le.mpr h2)
      · exact hl.2

/-- If a cell holding `R` lies within one row and one column of the query
cell, the 3×3 probe reaches it. -/
lemma probe_of_near (R : TileRect) (lat lon : ℚ) (x y : ℤ)
    (h : insertedCells R (x, y) = true)
    (hx1 : latCell lat - 1 ≤ x) (hx2 : x ≤ latCell lat + 1)
    (hy1 : lonCell lon - 1 ≤ y) (hy2 : y ≤ lonCell lon + 1) :
    probeFindsRect R lat lon = true := by
  unfold probeFindsRect
  rw [List.any_eq_true]
  refine ⟨(x - latCell lat, y - lonCell lon), ?_, ?_⟩
  · have hdx : x - latCell lat = -1 ∨ x - latCell lat = 0 ∨ x - latCell lat = 1 := by
      omega
    have hdy : y - lonCell lon = -1 ∨ y - lonCell lon = 0 ∨ y - lonCell lon = 1 := by
      omega
    unfold probeOffsets
    rcases hdx with h1 | h1 | h1 <;> rcases hdy with h2 | h2 | h2 <;>
      rw [h1, h2] <;> simp
  · rw [show latCell lat + (x - latCell lat) = x from by ring,
        show lonCell lon + (y - lonCell lon) = y from by ring]
    exact h

lemma lonCell_near_dateline : lonCell (180 - 1/1000000000) = 359 := by
  have h : normLon (180 - 1/1000000000) = 180 - 1/1000000000 :=
    normLon_idem _ (by norm_num) (by norm_num)
  unfold lonCell lonCellVal
  rw [h]
  norm_num [clampZ]

lemma lonCell_neg_180 : lonCell (-180) = 0 := by
  have h : normLon (-180) = -180 := normLon_idem _ (by norm_num) (by norm_num)
  unfold lonCell lonCellVal
  rw [h]
  norm_num [clampZ]

/-- C4: for any dataset rectangle `R` with ordered latitude bounds and any
point that `rect_contains` accepts, the 3×3 neighborhood probe of the
1°×1° spatial index reaches a bucket holding `R`; consequently the grid
query reports a hit whenever some listed rectangle contains the point. -/
theorem spatial_index_completeness (R : TileRect) (lat lon : ℚ)
    (hlat : R.lat_min ≤ R.lat_max)
    (hc : rect_contains R lat lon = true) :
    probeFindsRect R lat lon = true ∧
    ∀ rects : List TileRect, R ∈ rects → gridQueryHit rects lat lon = true := by
  have hmain : probeFindsRect R lat lon = true := by
    obtain ⟨⟨hlo, hhi⟩, hlon⟩ := (rect_contains_iff R lat lon).mp hc
    set a := normLon R.lon_min with ha
    set b := normLon R.lon_max with hb
    set L := normLon lon with hL
    have haI : -180 ≤ a ∧ a < 180 := ⟨normLon_lb _, normLon_ub _⟩
    have hbI : -180 ≤ b ∧ b < 180 := ⟨normLon_lb _, normLon_ub _⟩
    have hr0r1 : latCell R.lat_min ≤ latCell R.lat_max := latCell_mono hlat
    have hrlo : latCell R.lat_min - 1 ≤ latCell lat := latCell_near_lb hlo
    have hrhi : latCell lat ≤ latCell R.lat_max + 1 := latCell_near_ub hhi
    have hLcell : lonCell lon = lonCellVal L := rfl
    have hacell : lonCell a = lonCellVal a := by rw [ha]; exact lonCell_normLon _
    have hbcell : lonCell b = lonCellVal b := by rw [hb]; exact lonCell_normLon _
    -- choose the clamped row
    set r : ℤ := max (latCell R.lat_min) (min (latCell lat) (latCell R.lat_max))
      with hrdef
    have hrin1 : latCell R.lat_min ≤ r := le_max_left _ _
    have hrin2 : r ≤ latCell R.lat_max := by
      apply max_le hr0r1 (min_le_right _ _)
    have hrnear1 : latCell lat - 1 ≤ r := by
      rcases le_total (latCell lat) (latCell R.lat_max) with h | h
      · have : min (latCell lat) (latCell R.lat_max) = latCell lat := min_eq_left h
        rw [hrdef, this]; omega
      · have : min (latCell lat) (latCell R.lat_max) = latCell R.lat_max :=
          min_eq_right h
        rw [hrdef, this]; omega
    have hrnear2 : r ≤ latCell lat + 1 := by
      rcases le_total (latCell lat) (latCell R.lat_min) with h | h
      · have h1 : min (latCell lat) (latCell R.lat_max) ≤ latCell lat :=
          min_le_left _ _
        rw [hrdef]; omega
      · have h1 : min (latCell lat) (latCell R.lat_max) ≤ latCell lat :=
          min_le_left _ _
        rw [hrdef]; omega
    rcases hlon with ⟨hab, hl1, hl2⟩ | ⟨hba, hl⟩
    · -- non-wrapping rectangle
      have hc0c1 : lonCellVal a ≤ lonCellVal b := lonCellVal_mono hab
      have hclo : lonCellVal a - 1 ≤ lonCell lon := by
        rw [hLcell]; exact lonCellVal_near_lb hl1
      have hchi : lonCell lon ≤ lonCellVal b + 1 := by
        rw [hLcell]; exact lonCellVal_near_ub hl2
      set c : ℤ := max (lonCellVal a) (min (lonCell lon) (lonCellVal b)) with hcdef
      have hcin1 : lonCellVal a ≤ c := le_max_left _ _
      have hcin2 : c ≤ lonCellVal b := max_le hc0c1 (min_le_right _ _)
      have hcnear1 : lonCell lon - 1 ≤ c := by
        rcases le_total (lonCell lon) (lonCellVal b) with h | h
        · have : min (lonCell lon) (lonCellVal b) = lonCell lon := min_eq_left h
          rw [hcdef, this]; omega
        · have : min (lonCell lon) (lonCellVal b) = lonCellVal b := min_eq_right h
          rw [hcdef, this]; omega
      have hcnear2 : c ≤ lonCell lon + 1 := by
        have h1 : min (lonCell lon) (lonCellVal b) ≤ lonCell lon := min_le_left _ _
        rw [hcdef]; omega
      apply probe_of_near R lat lon r c _ hrnear1 hrnear2 hcnear1 hcnear2
      unfold insertedCells
      rw [← ha, ← hb, if_pos hab]
      rw [hacell, hbcell]
      simp only [decide_eq_true_eq]
      exact ⟨hrin1, hrin2, hcin1, hcin2⟩
    · -- wrapping rectangle: the point lies in one of the two spans
      rcases hl with hl | hl
      · -- span [a, 180 - 1e-9]
        have hclo : lonCellVal a - 1 ≤ lonCell lon := by
          rw [hLcell]; exact lonCellVal_near_lb hl
        set c : ℤ := max (lonCellVal a) (lonCell lon) with hcdef
        have hcin1 : lonCellVal a ≤ c := le_max_left _ _
        have hcin2 : c ≤ 359 := by
          apply max_le (lonCellVal_ub a)
          rw [hLcell]; exact lonCellVal_ub L
        have hcnear1 : lonCell lon - 1 ≤ c := by
          have := le_max_right (lonCellVal a) (lonCell lon); omega
        have hcnear2 : c ≤ lonCell lon + 1 := by
          rw [hcdef]; omega
        apply probe_of_near R lat lon r c _ hrnear1 hrnear2 hcnear1 hcnear2
        unfold insertedCells
        rw [← ha, ← hb, if_neg (not_le.mpr hba)]
        rw [hacell]
        simp only [decide_eq_true_eq]
        left
        refine ⟨hrin1, hrin2, hcin1, ?_⟩
        rw [lonCell_near_dateline]
        exact hcin2
      · -- span [-180, b]
        have hchi : lonCell lon ≤ lonCellVal b + 1 := by
          rw [hLcell]; exact lonCellVal_near_ub hl
        set c : ℤ := min (lonCell lon) (lonCellVal b) with hcdef
        have hcin1 : 0 ≤ c := by
          apply le_min _ (lonCellVal_lb b)
          rw [hLcell]; exact lonCellVal_lb L
        have hcin2 : c ≤ lonCellVal b := min_le_right _ _
        have hcnear1 : lonCell lon - 1 ≤ c := by
          rw [hcdef]; omega
        have hcnear2 : c ≤ lonCell lon + 1 := by
          have := min_le_left (lonCell lon) (lonCellVal b); omega
        apply probe_of_near R lat lon r c _ hrnear1 hrnear2 hcnear1 hcnear2
        unfold insertedCells
        rw [← ha, ← hb, if_neg (not_le.mpr hba)]
        rw [hbcell]
        simp only [decide_eq_true_eq]
        right
        refine ⟨hrin1, hrin2, ?_, hcin2⟩
        rw [lonCell_neg_180]
        exact hcin1
  refine ⟨hmain, fun rects hmem => ?_⟩
  unfold gridQueryHit
  rw [List.any_eq_true]
  exact ⟨R, hmem, by rw [Bool.and_eq_true]; exact ⟨hmain, hc⟩⟩

/-- Witness for C4: the rectangle `[0,10] × [20,30]` and the interior point
`(5, 25)`. -/
theorem spatial_index_completeness_witness :
    ((⟨0, 10, 20, 30⟩ : TileRect).lat_min ≤ (⟨0, 10, 20, 30⟩ : TileRect).lat_max ∧
      rect_contains ⟨0, 10, 20, 30⟩ 5 25 = true) ∧
    (probeFindsRect ⟨0, 10, 20, 30⟩ 5 25 = true ∧
      ∀ rects : List TileRect, (⟨0, 10, 20, 30⟩ : TileRect) ∈ rects →
        gridQueryHit rects 5 25 = true) :=
  ⟨⟨by norm_num, by norm_num [rect_contains, normLon, cfmod, ctrunc, EPS]⟩,
   spatial_index_completeness ⟨0, 10, 20, 30⟩ 5 25 (by norm_num)
     (by norm_num [rect_contains, normLon, cfmod, ctrunc, EPS])⟩

/-! ### Ephemeris engine: `collect_groundtrack_duration` (ephem_point.c) -/

/-- The sampling loop of `collect_groundtrack_duration`:
`for (int sec = 0; sec <= duration_s; sec += step_sec)` emits the Julian date
`jul_now + sec/86400` at each iteration.  (The guard `0 < step` records that a
non-positive step would never terminate in C; all callers force `step ≥ 1`.) -/
def collectFrom (jul0 : ℚ) (duration step sec : ℕ) : List ℚ :=
  if h : sec ≤ duration ∧ 0 < step then
    (jul0 + (sec : ℚ) / 86400) :: collectFrom jul0 duration step (sec + step)
  else []
termination_by duration + 1 - sec
decreasing_by omega

/-- `collect_groundtrack_duration(sat, qth, duration_s, step_sec)` restricted
to the per-sample Julian dates it pushes into the ephemeris buffer (the buffer
is appended in loop order, hence chronological). -/
def collect_groundtrack_duration (jul0 : ℚ) (duration step : ℕ) : List ℚ :=
  collectFrom jul0 duration step 0

lemma collectFrom_eq (jul0 : ℚ) (D s : ℕ) (hs : 0 < s) :
    ∀ n sec, D - sec = n → sec ≤ D →
      collectFrom jul0 D s sec =
        (List.range ((D - sec) / s + 1)).map
          (fun k => jul0 + ((sec + k * s : ℕ) : ℚ) / 86400) := by
  intro n
  induction n using Nat.strong_induction_on with
  | _ n ih =>
    intro sec hn hsec
    rw [collectFrom, dif_pos ⟨hsec, hs⟩]
    by_cases hnext : sec + s ≤ D
    · have hdiv : (D - sec) / s = (D - (sec + s)) / s + 1 := by
        rw [show D - sec = (D - (sec + s)) + s by omega]
        rw [Nat.add_div_right _ hs]
      rw [hdiv, List.range_succ_eq_map, List.map_cons, List.map_map,
        ih (D - (sec + s)) (by omega) (sec + s) rfl hnext]
      congr 1
      · norm_num
      · apply List.map_congr_left
        intro k _
        have harg : sec + s + k * s = sec + (k + 1) * s := by ring
        simp only [Function.comp_apply, Nat.succ_eq_add_one, harg]
    · rw [collectFrom, dif_neg (by omega)]
      have hdiv : (D - sec) / s = 0 := Nat.div_eq_of_lt (by omega)
      rw [hdiv, show List.range (0 + 1) = [0] from rfl, List.map_singleton]
      norm_num

/-- C2: with horizon `D > 0` seconds and step `s > 0` seconds, the engine
produces exactly `⌊D/s⌋ + 1` samples, the first at `jd_now`, the `k`-th at
`jd_now + k·s/86400`, and the buffer is strictly increasing in `jd`. -/
theorem ephemeris_sample_count (jul0 : ℚ) (D s : ℕ) (hD : 0 < D) (hs : 0 < s) :
    (collect_groundtrack_duration jul0 D s).length = D / s + 1 ∧
    (collect_groundtrack_duration jul0 D s).head? = some jul0 ∧
    (∀ k, k < D / s + 1 →
      (collect_groundtrack_duration jul0 D s).get? k =
        some (jul0 + ((k * s : ℕ) : ℚ) / 86400)) ∧
    (collect_groundtrack_duration jul0 D s).Pairwise (· < ·) := by
  have _hD := hD
  have hrep := collectFrom_eq jul0 D s hs (D - 0) 0 rfl (Nat.zero_le D)
  simp only [Nat.sub_zero, Nat.zero_add] at hrep
  unfold collect_groundtrack_duration
  rw [hrep]
  refine ⟨?_, ?_, ?_, ?_⟩
  · rw [List.length_map, List.length_range]
  · rw [List.head?_map]
    rw [show List.range (D / s + 1) = 0 :: (List.range (D / s)).map Nat.succ from
      List.range_succ_eq_map _]
    norm_num
  · intro k hk
    rw [List.get?_map, List.get?_range (by omega : k < D / s + 1)]
    simp
  · apply List.Pairwise.map
    · intro a b hab
      have h1 : (a * s : ℕ) < (b * s : ℕ) := (Nat.mul_lt_mul_right hs).mpr hab
      have h2 : ((a * s : ℕ) : ℚ) < ((b * s : ℕ) : ℚ) := by exact_mod_cast h1
      have h3 : ((a * s : ℕ) : ℚ) / 86400 < ((b * s : ℕ) : ℚ) / 86400 :=
        (div_lt_div_right (by norm_num)).mpr h2
      linarith
    · exact List.pairwise_lt_range _

/-- Witness for C2: horizon 3 s, step 1 s, `jd_now = 2460832.436` gives 4
samples. -/
theorem ephemeris_sample_count_witness :
    (0 < 3 ∧ 0 < 1) ∧
    ((collect_groundtrack_duration (2460832436 / 1000) 3 1).length = 3 / 1 + 1 ∧
     (collect_groundtrack_duration (2460832436 / 1000) 3 1).head? =
        some (2460832436 / 1000) ∧
     (∀ k, k < 3 / 1 + 1 →
       (collect_groundtrack_duration (2460832436 / 1000) 3 1).get? k =
         some (2460832436 / 1000 + ((k * 1 : ℕ) : ℚ) / 86400)) ∧
     (collect_groundtrack_duration (2460832436 / 1000) 3 1).Pairwise (· < ·)) :=
  ⟨⟨by decide, by decide⟩,
   ephemeris_sample_count (2460832436 / 1000) 3 1 (by decide) (by decide)⟩

/-! ### Time utilities: `jd_to_gregorian` (gtk-sat-map-ground-track.c) -/

/-- Return record for `jd_to_gregorian`'s six output parameters. -/
structure GregorianDateTime where
  year : ℤ
  month : ℤ
  day : ℤ
  hour : ℤ
  minute : ℤ
  second : ℤ
deriving Repr, DecidableEq

/-- Integer part `J = (long) floor(jd + 0.5)`. -/
def jdJ (jd : ℚ) : ℤ := ⌊jd + 1/2⌋

/-- Fractional day `F = (jd + 0.5) - Z`. -/
def jdF (jd : ℚ) : ℚ := jd + 1/2 - jdJ jd

/-- Gregorian-reform correction term `alpha`. -/
def jdAlpha (jd : ℚ) : ℤ := ⌊(((jdJ jd : ℚ) - 1867216.25) / 36524.25)⌋

/-- The corrected day number `A`. -/
def jdA (jd : ℚ) : ℤ :=
  if 2299161 ≤ jdJ jd then jdJ jd + 1 + jdAlpha jd - ⌊((jdAlpha jd : ℚ) / 4)⌋
  else jdJ jd

/-- Meeus `B = A + 1524`. -/
def jdB (jd : ℚ) : ℤ := jdA jd + 1524

/-- Meeus `C = floor((B - 122.1) / 365.25)`. -/
def jdCC (jd : ℚ) : ℤ := ⌊(((jdB jd : ℚ) - 122.1) / 365.25)⌋

/-- Meeus `D = floor(365.25 * C)`. -/
def jdDD (jd : ℚ) : ℤ := ⌊(365.25 * (jdCC jd : ℚ))⌋

/-- Meeus `E = floor((B - D) / 30.6001)`. -/
def jdE (jd : ℚ) : ℤ := ⌊(((jdB jd - jdDD jd : ℤ) : ℚ) / 30.6001)⌋

/-- `day_decimal = B - D - floor(30.6001 * E) + F`. -/
def jdDayDecimal (jd : ℚ) : ℚ :=
  ((jdB jd - jdDD jd - ⌊(30.6001 * (jdE jd : ℚ))⌋ : ℤ) : ℚ) + jdF jd

/-- Integer day-of-month before the carry step. -/
def jdRawDay (jd : ℚ) : ℤ := ⌊jdDayDecimal jd⌋

/-- Month from `E` (no later adjustment). -/
def jdMonth (jd : ℚ) : ℤ := if jdE jd < 14 then jdE jd - 1 else jdE jd - 13

/-- Year from `C` and the month. -/
def jdYear (jd : ℚ) : ℤ := if 2 < jdMonth jd then jdCC jd - 4716 else jdCC jd - 4715

/-- `total_seconds = fractional_day * 86400`. -/
def jdTotalSeconds (jd : ℚ) : ℚ := (jdDayDecimal jd - jdRawDay jd) * 86400

/-- `hour = (int) floor(total_seconds / 3600)`. -/
def jdHour0 (jd : ℚ) : ℤ := ⌊jdTotalSeconds jd / 3600⌋

/-- `rem = total_seconds - hour * 3600`. -/
def jdRem (jd : ℚ) : ℚ := jdTotalSeconds jd - jdHour0 jd * 3600

/-- `minute = (int) floor(rem / 60)`. -/
def jdMin0 (jd : ℚ) : ℤ := ⌊jdRem jd / 60⌋

/-- `seconds = rem - minute * 60`. -/
def jdSecQ (jd : ℚ) : ℚ := jdRem jd - jdMin0 jd * 60

/-- `second = (int) floor(seconds + 0.5)` — round to nearest, ties up. -/
def jdSec0 (jd : ℚ) : ℤ := ⌊jdSecQ jd + 1/2⌋

/-- The carry chain of `jd_to_gregorian`: an overflowing second propagates
through minute and hour into the day; month and year are not re-checked. -/
def jdCarry (day hour minute second : ℤ) : ℤ × ℤ × ℤ × ℤ :=
  if 60 ≤ second then
    if 60 ≤ minute + 1 then
      if 24 ≤ hour + 1 then (day + 1, hour + 1 - 24, minute + 1 - 60, second - 60)
      else (day, hour + 1, minute + 1 - 60, second - 60)
    else (day, hour, minute + 1, second - 60)
  else (day, hour, minute, second)

/-- Full `jd_to_gregorian`: Fliegel–Van Flandern / Meeus date, time of day
rounded to the nearest second (ties up), carry propagation up to the day. -/
def jd_to_gregorian (jd : ℚ) : GregorianDateTime :=
  { year := jdYear jd
    month := jdMonth jd
    day := (jdCarry (jdRawDay jd) (jdHour0 jd) (jdMin0 jd) (jdSec0 jd)).1
    hour := (jdCarry (jdRawDay jd) (jdHour0 jd) (jdMin0 jd) (jdSec0 jd)).2.1
    minute := (jdCarry (jdRawDay jd) (jdHour0 jd) (jdMin0 jd) (jdSec0 jd)).2.2.1
    second := (jdCarry (jdRawDay jd) (jdHour0 jd) (jdMin0 jd) (jdSec0 jd)).2.2.2 }

lemma jdF_bounds (jd : ℚ) : 0 ≤ jdF jd ∧ jdF jd < 1 := by
  unfold jdF jdJ
  constructor
  · have := Int.floor_le (jd + 1/2); linarith
  · have := Int.lt_floor_add_one (jd + 1/2); linarith

lemma jdDayDecimal_fract (jd : ℚ) :
    jdRawDay jd = (jdB jd - jdDD jd - ⌊(30.6001 * (jdE jd : ℚ))⌋ : ℤ) ∧
    jdDayDecimal jd - jdRawDay jd = jdF jd := by
  obtain ⟨h0, h1⟩ := jdF_bounds jd
  have hfl : ⌊jdF jd⌋ = 0 := by
    apply Int.floor_eq_zero_iff.mpr
    exact ⟨h0, h1⟩
  have hr : jdRawDay jd = (jdB jd - jdDD jd - ⌊(30.6001 * (jdE jd : ℚ))⌋ : ℤ) := by
    unfold jdRawDay jdDayDecimal
    rw [Int.floor_int_add, hfl, add_zero]
  refine ⟨hr, ?_⟩
  unfold jdDayDecimal
  rw [hr]
  ring

lemma jdTotalSeconds_bounds (jd : ℚ) :
    0 ≤ jdTotalSeconds jd ∧ jdTotalSeconds jd < 86400 := by
  obtain ⟨-, h⟩ := jdDayDecimal_fract jd
  obtain ⟨h0, h1⟩ := jdF_bounds jd
  unfold jdTotalSeconds
  rw [h]
  constructor
  · positivity
  · nlinarith

lemma jdHour0_bounds (jd : ℚ) : 0 ≤ jdHour0 jd ∧ jdHour0 jd ≤ 23 := by
  obtain ⟨h0, h1⟩ := jdTotalSeconds_bounds jd
  unfold jdHour0
  constructor
  · apply Int.floor_nonneg.mpr; positivity
  · have : ⌊jdTotalSeconds jd / 3600⌋ < 24 := by
      apply Int.floor_lt.mpr
      push_cast
      rw [div_lt_iff (by norm_num : (0:ℚ) < 3600)]
      linarith
    omega

lemma jdRem_bounds (jd : ℚ) : 0 ≤ jdRem jd ∧ jdRem jd < 3600 := by
  unfold jdRem jdHour0
  have h1 := Int.floor_le (jdTotalSeconds jd / 3600)
  have h2 := Int.lt_floor_add_one (jdTotalSeconds jd / 3600)
  constructor
  · nlinarith
  · nlinarith

lemma jdMin0_bounds (jd : ℚ) : 0 ≤ jdMin0 jd ∧ jdMin0 jd ≤ 59 := by
  obtain ⟨h0, h1⟩ := jdRem_bounds jd
  unfold jdMin0
  constructor
  · apply Int.floor_nonneg.mpr; positivity
  · have : ⌊jdRem jd / 60⌋ < 60 := by
      apply Int.floor_lt.mpr
      push_cast
      rw [div_lt_iff (by norm_num : (0:ℚ) < 60)]
      linarith
    omega

lemma jdSecQ_bounds (jd : ℚ) : 0 ≤ jdSecQ jd ∧ jdSecQ jd < 60 := by
  unfold jdSecQ jdMin0
  have h1 := Int.floor_le (jdRem jd / 60)
  have h2 := Int.lt_floor_add_one (jdRem jd / 60)
  constructor
  · nlinarith
  · nlinarith

lemma jdSec0_bounds (jd : ℚ) : 0 ≤ jdSec0 jd ∧ jdSec0 jd ≤ 60 := by
  obtain ⟨h0, h1⟩ := jdSecQ_bounds jd
  unfold jdSec0
  constructor
  · apply Int.floor_nonneg.mpr; linarith
  · have : ⌊jdSecQ jd + 1/2⌋ < 61 := by
      apply Int.floor_lt.mpr
      push_cast
      linarith
    omega

lemma jd_precarry_total (jd : ℚ) :
    3600 * jdHour0 jd + 60 * jdMin0 jd + jdSec0 jd =
      ⌊jdTotalSeconds jd + 1/2⌋ := by
  have hsec : jdSecQ jd = jdTotalSeconds jd - 3600 * jdHour0 jd - 60 * jdMin0 jd := by
    unfold jdSecQ jdRem
    ring
  have hkey : jdTotalSeconds jd + 1/2 =
      jdSecQ jd + 1/2 + ((3600 * jdHour0 jd + 60 * jdMin0 jd : ℤ) : ℚ) := by
    rw [hsec]; push_cast; ring
  unfold jdSec0
  rw [hkey, Int.floor_add_int]
  ring

lemma jdCarry_spec (d h m s : ℤ) (hh0 : 0 ≤ h) (hh1 : h ≤ 23)
    (hm0 : 0 ≤ m) (hm1 : m ≤ 59) (hs0 : 0 ≤ s) (hs1 : s ≤ 60) :
    (0 ≤ (jdCarry d h m s).2.2.2 ∧ (jdCarry d h m s).2.2.2 ≤ 59) ∧
    (0 ≤ (jdCarry d h m s).2.2.1 ∧ (jdCarry d h m s).2.2.1 ≤ 59) ∧
    (0 ≤ (jdCarry d h m s).2.1 ∧ (jdCarry d h m s).2.1 ≤ 23) ∧
    ((jdCarry d h m s).2.1 * 3600 + (jdCarry d h m s).2.2.1 * 60 +
        (jdCarry d h m s).2.2.2 + 86400 * ((jdCarry d h m s).1 - d) =
      3600 * h + 60 * m + s) ∧
    (d ≤ (jdCarry d h m s).1 ∧ (jdCarry d h m s).1 ≤ d + 1) := by
  unfold jdCarry
  split_ifs <;> simp only [] <;> omega

/-- A Julian date 0.25 s before 2024-02-01T00:00:00 UTC (so the rounded
second overflows and the carry yields January 32). -/
def jdJan32Example : ℚ := 2460341.5 - 1/345600

/-- C7: for every Julian date, `jd_to_gregorian` leaves second and minute in
`[0, 59]` and hour in `[0, 23]`; the emitted time of day plus `86400` per
carried day equals the time-of-day in seconds rounded to the nearest integer
with ties up (`⌊total_seconds + 1/2⌋`); the day moves by at most one and
month/year are never re-adjusted — concretely, 0.25 s before 2024-02-01 the
function returns January 32. -/
theorem jd_to_gregorian_second_rounding (jd : ℚ) :
    (0 ≤ (jd_to_gregorian jd).second ∧ (jd_to_gregorian jd).second ≤ 59) ∧
    (0 ≤ (jd_to_gregorian jd).minute ∧ (jd_to_gregorian jd).minute ≤ 59) ∧
    (0 ≤ (jd_to_gregorian jd).hour ∧ (jd_to_gregorian jd).hour ≤ 23) ∧
    ((jd_to_gregorian jd).hour * 3600 + (jd_to_gregorian jd).minute * 60 +
        (jd_to_gregorian jd).second +
        86400 * ((jd_to_gregorian jd).day - jdRawDay jd) =
      ⌊jdTotalSeconds jd + 1/2⌋) ∧
    (jdRawDay jd ≤ (jd_to_gregorian jd).day ∧
      (jd_to_gregorian jd).day ≤ jdRawDay jd + 1) ∧
    ((jd_to_gregorian jd).month = jdMonth jd ∧
      (jd_to_gregorian jd).year = jdYear jd) ∧
    jd_to_gregorian jdJan32Example = ⟨2024, 1, 32, 0, 0, 0⟩ := by
  obtain ⟨hh0, hh1⟩ := jdHour0_bounds jd
  obtain ⟨hm0, hm1⟩ := jdMin0_bounds jd
  obtain ⟨hs0, hs1⟩ := jdSec0_bounds jd
  obtain ⟨hcs, hcm, hch, hctot, hcd⟩ :=
    jdCarry_spec (jdRawDay jd) (jdHour0 jd) (jdMin0 jd) (jdSec0 jd)
      hh0 hh1 hm0 hm1 hs0 hs1
  refine ⟨hcs, hcm, hch, ?_, hcd, ⟨rfl, rfl⟩, ?_⟩
  · show (jdCarry (jdRawDay jd) (jdHour0 jd) (jdMin0 jd) (jdSec0 jd)).2.1 * 3600 +
      (jdCarry (jdRawDay jd) (jdHour0 jd) (jdMin0 jd) (jdSec0 jd)).2.2.1 * 60 +
      (jdCarry (jdRawDay jd) (jdHour0 jd) (jdMin0 jd) (jdSec0 jd)).2.2.2 +
      86400 * ((jdCarry (jdRawDay jd) (jdHour0 jd) (jdMin0 jd) (jdSec0 jd)).1 -
        jdRawDay jd) = ⌊jdTotalSeconds jd + 1/2⌋
    rw [hctot, ← jd_precarry_total jd]
  · norm_num [jd_to_gregorian, jdYear, jdMonth, jdCarry, jdRawDay, jdDayDecimal,
      jdSec0, jdSecQ, jdMin0, jdRem, jdHour0, jdTotalSeconds, jdE, jdDD, jdCC,
      jdB, jdA, jdAlpha, jdF, jdJ, jdJan32Example]

/-! ### Ray-casting point-in-polygon and the territory labeler -/

/-- A latitude/longitude pair (`GeoPoint` / `LP_GeoPoint`). -/
structure GeoPoint where
  lat : ℚ
  lon : ℚ
deriving Repr, DecidableEq

/-- The ray-casting membership test `_point_in_poly` of
`Logic_Country_Filter.c`: for each edge `(pts[j], pts[i])` with
`j = i - 1` (wrapping to `n - 1` for `i = 0`), toggle `inside` when the
horizontal ray at `lat` crosses the edge left of `lon`. -/
def pointInPoly (pts : List GeoPoint) (lat lon : ℚ) : Bool :=
  (List.range pts.length).foldl
    (fun inside i =>
      let pI := pts.getD i ⟨0, 0⟩
      let pJ := pts.getD (if i = 0 then pts.length - 1 else i - 1) ⟨0, 0⟩
      if (decide (pI.lat > lat)) != (decide (pJ.lat > lat)) then
        if lon < pI.lon + (lat - pI.lat) * (pJ.lon - pI.lon) / (pJ.lat - pI.lat)
        then !inside else inside
      else inside)
    false

/-- An ephemeris point as reconstructed from the displayed model
(`ToolEphemPoint`, timestamp field omitted where unused). -/
structure ToolEphemPoint where
  time_str : String
  lat : ℚ
  lon : ℚ
deriving Repr, DecidableEq

/-- A row of the territory table (`ZoneRow`). -/
structure ZoneRow where
  time : String
  lat : ℚ
  lon : ℚ
  country : String
deriving Repr, DecidableEq

/-- The first-hit country lookup inside `country_worker`: walk the polygon
and country lists in parallel (dataset order) and stop at the first polygon
containing the point. -/
def countryFirstHit : List (List GeoPoint) → List String → ℚ → ℚ → Option String
  | poly :: ps, c :: cs, lat, lon =>
    if pointInPoly poly lat lon then some c else countryFirstHit ps cs lat lon
  | _, _, _, _ => none

/-- The per-sample emission of `country_worker`: a row is kept when the point
hit some polygon and either the "Territory" wildcard is selected or the label
matches the selected country. -/
def zoneRowsOfSample (polys : List (List GeoPoint)) (countries : List String)
    (selector : String) (pt : ToolEphemPoint) : List ZoneRow :=
  match countryFirstHit polys countries pt.lat pt.lon with
  | some hit =>
    if selector = "Territory" ∨ hit = selector then
      [⟨pt.time_str, pt.lat, pt.lon, hit⟩]
    else []
  | none => []

/-- The `country_worker` loop with its per-sample cancellation poll:
a detected cancellation returns the `Cancelled` error and the partial row
array is dropped. -/
def countryWorkerGo (cancel : ℕ → Bool) (polys : List (List GeoPoint))
    (countries : List String) (selector : String) :
    ℕ → List ToolEphemPoint → Except Unit (List ZoneRow)
  | _, [] => Except.ok []
  | idx, pt :: rest =>
    if cancel idx then Except.error ()
    else
      match countryWorkerGo cancel polys countries selector (idx + 1) rest with
      | Except.error e => Except.error e
      | Except.ok rows => Except.ok (zoneRowsOfSample polys countries selector pt ++ rows)

/-- `country_worker` over the full sample list. -/
def country_worker (cancel : ℕ → Bool) (polys : List (List GeoPoint))
    (countries : List String) (selector : String)
    (samples : List ToolEphemPoint) : Except Unit (List ZoneRow) :=
  countryWorkerGo cancel polys countries selector 0 samples

lemma countryWorkerGo_no_cancel (polys : List (List GeoPoint))
    (countries : List String) (selector : String) :
    ∀ (idx : ℕ) (samples : List ToolEphemPoint),
      countryWorkerGo (fun _ => false) polys countries selector idx samples =
        Except.ok (samples.flatMap (zoneRowsOfSample polys countries selector)) := by
  intro idx samples
  induction samples generalizing idx with
  | nil => rfl
  | cons pt rest ih =>
    show (if (false : Bool) then _ else _) = _
    rw [if_neg (by simp)]
    rw [ih (idx + 1)]
    rfl

lemma countryFirstHit_first (lat lon : ℚ) :
    ∀ (polys : List (List GeoPoint)) (countries : List String),
      polys.length = countries.length →
      (∃ poly ∈ polys, pointInPoly poly lat lon = true) →
      ∃ i, i < polys.length ∧
        pointInPoly (polys.getD i []) lat lon = true ∧
        (∀ j, j < i → pointInPoly (polys.getD j []) lat lon = false) ∧
        countryFirstHit polys countries lat lon = some (countries.getD i "") := by
  intro polys
  induction polys with
  | nil =>
    intro countries _ hex
    simp at hex
  | cons p ps ih =>
    intro countries hlen hex
    cases countries with
    | nil => simp at hlen
    | cons c cs =>
      by_cases hp : pointInPoly p lat lon = true
      · refine ⟨0, by simp, by simpa using hp, fun j hj => absurd hj (Nat.not_lt_zero j), ?_⟩
        show (if pointInPoly p lat lon then some c else _) = _
        rw [if_pos hp]
        rfl
      · have hex' : ∃ poly ∈ ps, pointInPoly poly lat lon = true := by
          obtain ⟨poly, hmem, hpoly⟩ := hex
          rcases List.mem_cons.mp hmem with rfl | hmem'
          · exact absurd hpoly hp
          · exact ⟨poly, hmem', hpoly⟩
        obtain ⟨i, hi, hgi, hfirst, hfind⟩ := ih cs (by simpa using hlen) hex'
        refine ⟨i + 1, by simpa using hi, by simpa using hgi, ?_, ?_⟩
        · intro j hj
          cases j with
          | zero => simpa using (Bool.not_eq_true _).mp hp
          | succ j' => simpa using hfirst j' (by omega)
        · show (if pointInPoly p lat lon then some c else _) = _
          rw [if_neg hp]
          simpa using hfind

/-- C9: the territory labeler emits, in sample order, the per-sample rows
given by the first containing polygon in dataset order; under the
"Territory" wildcard a contained sample yields exactly one row labeled with
that first hit; under a specific selector the row appears only when the
first-hit label equals the selector; uncontained samples yield no row. -/
theorem territory_labeler_rows (polys : List (List GeoPoint))
    (countries : List String) (selector : String)
    (samples : List ToolEphemPoint)
    (hlen : polys.length = countries.length) :
    country_worker (fun _ => false) polys countries selector samples =
      Except.ok (samples.flatMap (zoneRowsOfSample polys countries selector)) ∧
    (∀ pt : ToolEphemPoint,
      (∃ poly ∈ polys, pointInPoly poly pt.lat pt.lon = true) →
      ∃ i, i < polys.length ∧
        pointInPoly (polys.getD i []) pt.lat pt.lon = true ∧
        (∀ j, j < i → pointInPoly (polys.getD j []) pt.lat pt.lon = false) ∧
        zoneRowsOfSample polys countries "Territory" pt =
          [⟨pt.time_str, pt.lat, pt.lon, countries.getD i ""⟩] ∧
        zoneRowsOfSample polys countries selector pt =
          (if selector = "Territory" ∨ countries.getD i "" = selector then
            [⟨pt.time_str, pt.lat, pt.lon, countries.getD i ""⟩]
          else [])) ∧
    (∀ pt : ToolEphemPoint,
      countryFirstHit polys countries pt.lat pt.lon = none →
      zoneRowsOfSample polys countries selector pt = []) := by
  refine ⟨countryWorkerGo_no_cancel polys countries selector 0 samples, ?_, ?_⟩
  · intro pt hex
    obtain ⟨i, hi, hgi, hfirst, hfind⟩ :=
      countryFirstHit_first pt.lat pt.lon polys countries hlen hex
    refine ⟨i, hi, hgi, hfirst, ?_, ?_⟩
    · unfold zoneRowsOfSample
      rw [hfind]
      simp
    · unfold zoneRowsOfSample
      rw [hfind]
  · intro pt hnone
    unfold zoneRowsOfSample
    rw [hnone]

/-- Witness for C9: a single square polygon labeled "United Kingdom" and one
sample inside it. -/
theorem territory_labeler_rows_witness :
    ([[(⟨51, -1⟩ : GeoPoint), ⟨51, 0⟩, ⟨52, 0⟩, ⟨52, -1⟩]].length =
      ["United Kingdom"].length) ∧
    (country_worker (fun _ => false)
        [[(⟨51, -1⟩ : GeoPoint), ⟨51, 0⟩, ⟨52, 0⟩, ⟨52, -1⟩]]
        ["United Kingdom"] "Territory" [⟨"t0", 103/2, -1/2⟩] =
      Except.ok ([⟨"t0", 103/2, -1/2⟩].flatMap
        (zoneRowsOfSample [[(⟨51, -1⟩ : GeoPoint), ⟨51, 0⟩, ⟨52, 0⟩, ⟨52, -1⟩]]
          ["United Kingdom"] "Territory"))) :=
  ⟨by decide,
   (territory_labeler_rows [[(⟨51, -1⟩ : GeoPoint), ⟨51, 0⟩, ⟨52, 0⟩, ⟨52, -1⟩]]
      ["United Kingdom"] "Territory" [⟨"t0", 103/2, -1/2⟩] (by decide)).1⟩

/-! ### POI selector: `bbox_from_poly`, `poi_slice_worker`, `poi_worker` -/

/-- The `BBox` record of `points_interests.c`. -/
structure BBoxT where
  min_lat : ℚ
  max_lat : ℚ
  min_lon : ℚ
  max_lon : ℚ
  wraps : Bool
deriving Repr, DecidableEq

/-- `bbox_from_poly`: fold min/max over the polygon corners starting from the
sentinel box `{90, -90, 180, -180}`; crude wrap detection once at the end
(`max_lon - min_lon > 300`). -/
def bbox_from_poly (poly : List GeoPoint) : BBoxT :=
  let b : BBoxT := poly.foldl
    (fun (b : BBoxT) (p : GeoPoint) =>
      { b with
        min_lat := if p.lat < b.min_lat then p.lat else b.min_lat
        max_lat := if p.lat > b.max_lat then p.lat else b.max_lat
        min_lon := if p.lon < b.min_lon then p.lon else b.min_lon
        max_lon := if p.lon > b.max_lon then p.lon else b.max_lon })
    ⟨90, -90, 180, -180, false⟩
  { b with wraps := decide (b.max_lon - b.min_lon > 300) }

/-- `bbox_contains`: latitude interval test; the longitude test is skipped
for wrap-flagged boxes. -/
def bbox_contains (b : BBoxT) (lat lon : ℚ) : Bool :=
  if lat < b.min_lat ∨ lat > b.max_lat then false
  else if b.wraps then true
  else !(decide (lon < b.min_lon ∨ lon > b.max_lon))

/-- `lp_polygon_center` (corner form): midpoint of corners 0 and 2.  For the
rectangles that `lp_init` builds (`SW, SE, NE, NW`) this coincides with the
`TileRect`-metadata midpoint `((lat_min+lat_max)/2, (lon_min+lon_max)/2)`
that the Windows build prefers. -/
def lp_polygon_center (poly : List GeoPoint) : GeoPoint :=
  ⟨((poly.getD 0 ⟨0, 0⟩).lat + (poly.getD 2 ⟨0, 0⟩).lat) / 2,
   ((poly.getD 0 ⟨0, 0⟩).lon + (poly.getD 2 ⟨0, 0⟩).lon) / 2⟩

/-- One POI dataset entry: the 4-corner tile polygon with its parallel
name/type columns (`lp_get_all_polygons` with `ctx->names` / `ctx->types`). -/
structure PoiEntry where
  poly : List GeoPoint
  name : String
  ptype : String
deriving Repr, DecidableEq

/-- A row produced by `poi_slice_worker` (`PoiRow`); the bearing is kept as
its numeric value, `format_bearing_text` renders it for display only. -/
structure PoiRow where
  time : String
  lat : ℚ
  lon : ℚ
  range_km : ℚ
  brg : ℚ
  name : String
  ptype : String
deriving Repr, DecidableEq

/-- The inner polygon loop of `poi_slice_worker` for one sample: skip entries
failing the bbox pre-check; on the first polygon containment hit either stop
with no row (single-POI filter mismatch) or emit one row with the distance
and bearing from the rectangle center, then stop.  `dist`/`brg` stand for
`lp_compute_distance_km` (haversine) and `lp_compute_bearing_deg`. -/
def poiSampleScan (dist brg : GeoPoint → GeoPoint → ℚ) (filter : String)
    (t : ToolEphemPoint) : List PoiEntry → List PoiRow
  | [] => []
  | e :: rest =>
    if bbox_contains (bbox_from_poly e.poly) t.lat t.lon = false then
      poiSampleScan dist brg filter t rest
    else if pointInPoly e.poly t.lat t.lon then
      if filter ≠ "" ∧ e.name ≠ filter then []
      else
        [⟨t.time_str, t.lat, t.lon,
          dist (lp_polygon_center e.poly) ⟨t.lat, t.lon⟩,
          brg (lp_polygon_center e.poly) ⟨t.lat, t.lon⟩,
          e.name, e.ptype⟩]
    else poiSampleScan dist brg filter t rest

/-- The single-POI fast path of `poi_worker`: when a filter name is typed and
resolves in the names cache, only that polygon (the first with that name) is
scanned; otherwise all entries are scanned. -/
def poiSelectedEntries (filter : String) (entries : List PoiEntry) : List PoiEntry :=
  if filter = "" then entries
  else
    match entries.find? (fun e => e.name = filter) with
    | some e => [e]
    | none => entries

/-- The per-slice loop of `poi_slice_worker` with its per-sample cancellation
poll: a detected cancellation stops the slice, keeping only the rows built so
far. -/
def poiSliceSamples (cancel : ℕ → Bool) (dist brg : GeoPoint → GeoPoint → ℚ)
    (filter : String) (entries : List PoiEntry) :
    ℕ → List ToolEphemPoint → List PoiRow
  | _, [] => []
  | idx, t :: rest =>
    if cancel idx then []
    else
      poiSampleScan dist brg filter t entries ++
      poiSliceSamples cancel dist brg filter entries (idx + 1) rest

/-- The contiguous slicing of `poi_worker`: slices of `per` samples
(`s->count = MIN(per, npts - i*per)`), the last possibly shorter. -/
def chunks {α : Type} (per : ℕ) (l : List α) : List (List α) :=
  if h : l.length = 0 ∨ per = 0 then []
  else l.take per :: chunks per (l.drop per)
termination_by l.length
decreasing_by
  rcases not_or.mp h with ⟨h1, h2⟩
  simp only [List.length_drop]
  omega

/-- `poi_worker`: resolve the filter index, slice the sample list over
`nthreads` workers, run the slices, and concatenate the per-slice outputs in
slice order (the reduction step ends here — no per-POI aggregation). -/
def poiWorkerRun (cancel : ℕ → Bool) (dist brg : GeoPoint → GeoPoint → ℚ)
    (filter : String) (entries : List PoiEntry) (nthreads : ℕ)
    (samples : List ToolEphemPoint) : List PoiRow :=
  ((chunks ((samples.length + nthreads - 1) / nthreads) samples).map
    (poiSliceSamples cancel dist brg filter (poiSelectedEntries filter entries) 0)).flatten

lemma chunks_flatten {α : Type} (per : ℕ) (hper : 0 < per) (l : List α) :
    (chunks per l).flatten = l := by
  suffices h : ∀ (n : ℕ) (l : List α), l.length = n → (chunks per l).flatten = l from
    h l.length l rfl
  intro n
  induction n using Nat.strong_induction_on with
  | _ n ih =>
    intro l hlen
    by_cases hl : l = []
    · subst hl
      rw [chunks]
      simp
    · rw [chunks, dif_neg (by
        push_neg
        exact ⟨Nat.pos_iff_ne_zero.mp (List.length_pos.mpr hl), by omega⟩)]
      have hlt : (l.drop per).length < n := by
        rw [List.length_drop]
        have := List.length_pos.mpr hl
        omega
      rw [List.flatten_cons, ih _ hlt (l.drop per) rfl, List.take_append_drop]

lemma poiSliceSamples_no_cancel (dist brg : GeoPoint → GeoPoint → ℚ)
    (filter : String) (entries : List PoiEntry) :
    ∀ (idx : ℕ) (samples : List ToolEphemPoint),
      poiSliceSamples (fun _ => false) dist brg filter entries idx samples =
        samples.flatMap (fun t => poiSampleScan dist brg filter t entries) := by
  intro idx samples
  induction samples generalizing idx with
  | nil => rfl
  | cons t rest ih =>
    show (if (false : Bool) then _ else _) = _
    rw [if_neg (by simp)]
    rw [ih (idx + 1)]
    rfl

lemma flatten_map_flatMap {α β : Type} (f : α → List β) :
    ∀ L : List (List α), (L.map (fun l => l.flatMap f)).flatten = L.flatten.flatMap f := by
  intro L
  induction L with
  | nil => simp
  | cons a L ih => simp [ih]

lemma poiWorkerRun_no_cancel (dist brg : GeoPoint → GeoPoint → ℚ) (filter : String)
    (entries : List PoiEntry) (nthreads : ℕ) (samples : List ToolEphemPoint)
    (hn : 0 < nthreads) :
    poiWorkerRun (fun _ => false) dist brg filter entries nthreads samples =
      samples.flatMap
        (fun t => poiSampleScan dist brg filter t (poiSelectedEntries filter entries)) := by
  by_cases hs : samples = []
  · subst hs
    unfold poiWorkerRun
    rw [chunks]
    simp
  · have hper : 0 < (samples.length + nthreads - 1) / nthreads := by
      have hlen := List.length_pos.mpr hs
      exact (Nat.one_le_div_iff hn).mpr (by omega)
    unfold poiWorkerRun
    rw [List.map_congr_left
        (fun l _ => poiSliceSamples_no_cancel dist brg filter
          (poiSelectedEntries filter entries) 0 l),
      flatten_map_flatMap, chunks_flatten _ hper]

lemma poiSampleScan_mem (dist brg : GeoPoint → GeoPoint → ℚ) (filter : String)
    (t : ToolEphemPoint) :
    ∀ (entries : List PoiEntry) (r : PoiRow),
      r ∈ poiSampleScan dist brg filter t entries →
      r.time = t.time_str ∧ r.lat = t.lat ∧ r.lon = t.lon ∧
      ∃ e ∈ entries,
        pointInPoly e.poly t.lat t.lon = true ∧
        r.name = e.name ∧ r.ptype = e.ptype ∧
        r.range_km = dist (lp_polygon_center e.poly) ⟨t.lat, t.lon⟩ ∧
        r.brg = brg (lp_polygon_center e.poly) ⟨t.lat, t.lon⟩ := by
  intro entries
  induction entries with
  | nil =>
    intro r hr
    simp [poiSampleScan] at hr
  | cons e rest ih =>
    intro r hr
    unfold poiSampleScan at hr
    split_ifs at hr with hbb hpip hfil
    · obtain ⟨h1, h2, h3, e', he', rest'⟩ := ih r hr
      exact ⟨h1, h2, h3, e', List.mem_cons_of_mem e he', rest'⟩
    · simp at hr
    · rcases List.mem_singleton.mp hr with rfl
      exact ⟨rfl, rfl, rfl, e, List.mem_cons_self e rest, hpip, rfl, rfl, rfl, rfl⟩
    · obtain ⟨h1, h2, h3, e', he', rest'⟩ := ih r hr
      exact ⟨h1, h2, h3, e', List.mem_cons_of_mem e he', rest'⟩

/-- C1 (amended): an uncancelled POI run emits, in sample order, one record
per sample that passes the bbox pre-check and the polygon containment test of
some selected entry (at most one — the first hit — per sample); the record's
`range_km` is the center-to-sample distance of that entry.  The per-slice
outputs are concatenated with no per-POI reduction. -/
theorem poi_selector_rows (dist brg : GeoPoint → GeoPoint → ℚ) (filter : String)
    (entries : List PoiEntry) (nthreads : ℕ) (samples : List ToolEphemPoint)
    (hn : 0 < nthreads) :
    poiWorkerRun (fun _ => false) dist brg filter entries nthreads samples =
      samples.flatMap
        (fun t => poiSampleScan dist brg filter t (poiSelectedEntries filter entries)) ∧
    ∀ t : ToolEphemPoint,
      ∀ r ∈ poiSampleScan dist brg filter t (poiSelectedEntries filter entries),
        r.time = t.time_str ∧ r.lat = t.lat ∧ r.lon = t.lon ∧
        ∃ e ∈ poiSelectedEntries filter entries,
          pointInPoly e.poly t.lat t.lon = true ∧
          r.name = e.name ∧ r.ptype = e.ptype ∧
          r.range_km = dist (lp_polygon_center e.poly) ⟨t.lat, t.lon⟩ ∧
          r.brg = brg (lp_polygon_center e.poly) ⟨t.lat, t.lon⟩ := by
  constructor
  · exact poiWorkerRun_no_cancel dist brg filter entries nthreads samples hn
  · intro t r hr
    exact poiSampleScan_mem dist brg filter t _ r hr

/-- Witness for the amended C1 at a concrete single-POI dataset with two
samples and two worker threads. -/
theorem poi_selector_rows_witness :
    (0 < 2) ∧
    (poiWorkerRun (fun _ => false) (fun _ _ => 0) (fun _ _ => 0) ""
        [⟨[⟨0, 0⟩, ⟨0, 10⟩, ⟨10, 10⟩, ⟨10, 0⟩], "A", "City"⟩] 2
        [⟨"t1", 5, 5⟩, ⟨"t2", 5, 6⟩] =
      [(⟨"t1", 5, 5⟩ : ToolEphemPoint), ⟨"t2", 5, 6⟩].flatMap
        (fun t => poiSampleScan (fun _ _ => 0) (fun _ _ => 0) "" t
          (poiSelectedEntries ""
            [⟨[⟨0, 0⟩, ⟨0, 10⟩, ⟨10, 10⟩, ⟨10, 0⟩], "A", "City"⟩]))) :=
  ⟨by decide,
   (poi_selector_rows (fun _ _ => 0) (fun _ _ => 0) ""
      [⟨[⟨0, 0⟩, ⟨0, 10⟩, ⟨10, 10⟩, ⟨10, 0⟩], "A", "City"⟩] 2
      [⟨"t1", 5, 5⟩, ⟨"t2", 5, 6⟩] (by decide)).1⟩

/-- The axis-aligned 4-corner tile polygon `[0,10] × [0,10]` in `lp_init`
corner order (SW, SE, NE, NW). -/
def poiRectPoly : List GeoPoint := [⟨0, 0⟩, ⟨0, 10⟩, ⟨10, 10⟩, ⟨10, 0⟩]

/-- A concrete executable stand-in for `lp_compute_distance_km` used to
exhibit the selector's per-sample emission (the record count is independent
of the distance function). -/
def distSq (a b : GeoPoint) : ℚ := (a.lat - b.lat) ^ 2 + (a.lon - b.lon) ^ 2

lemma pip55 : pointInPoly poiRectPoly 5 5 = true := by
  norm_num [pointInPoly, poiRectPoly, List.range_succ]

lemma pip56 : pointInPoly poiRectPoly 5 6 = true := by
  norm_num [pointInPoly, poiRectPoly, List.range_succ]

lemma poiRectPoly_bbox : bbox_from_poly poiRectPoly = ⟨0, 10, 0, 10, false⟩ := by
  norm_num [bbox_from_poly, poiRectPoly]

lemma bb55 : bbox_contains (bbox_from_poly poiRectPoly) 5 5 = true := by
  rw [poiRectPoly_bbox]; norm_num [bbox_contains]

lemma bb56 : bbox_contains (bbox_from_poly poiRectPoly) 5 6 = true := by
  rw [poiRectPoly_bbox]; norm_num [bbox_contains]

lemma poiScanSample1 :
    poiSampleScan distSq (fun _ _ => 0) "" ⟨"t1", 5, 5⟩ [⟨poiRectPoly, "A", "City"⟩] =
      [⟨"t1", 5, 5, 0, 0, "A", "City"⟩] := by
  unfold poiSampleScan
  rw [if_neg (by rw [bb55]; simp), if_pos pip55, if_neg (by simp)]
  norm_num [distSq, lp_polygon_center, poiRectPoly]

lemma poiScanSample2 :
    poiSampleScan distSq (fun _ _ => 0) "" ⟨"t2", 5, 6⟩ [⟨poiRectPoly, "A", "City"⟩] =
      [⟨"t2", 5, 6, 1, 0, "A", "City"⟩] := by
  unfold poiSampleScan
  rw [if_neg (by rw [bb56]; simp), if_pos pip56, if_neg (by simp)]
  norm_num [distSq, lp_polygon_center, poiRectPoly]

lemma poiSelectedEntries_empty_filter :
    poiSelectedEntries "" [(⟨poiRectPoly, "A", "City"⟩ : PoiEntry)] =
      [⟨poiRectPoly, "A", "City"⟩] := by
  simp [poiSelectedEntries]

/-- Counterexample to C1 as stated: a run over one POI (name "A") whose
rectangle contains two samples emits two records named "A" — not exactly one
reduced record — and the second record's `range_km` exceeds the per-POI
minimum of the center distances (0 vs 1 here), so no min-reduction occurs. -/
theorem poi_no_reduction_counterexample :
    ((poiWorkerRun (fun _ => false) distSq (fun _ _ => 0) ""
        [⟨poiRectPoly, "A", "City"⟩] 2
        [⟨"t1", 5, 5⟩, ⟨"t2", 5, 6⟩]).map (fun r => (r.name, r.range_km)) =
      [("A", 0), ("A", 1)]) ∧
    ¬(((poiWorkerRun (fun _ => false) distSq (fun _ _ => 0) ""
        [⟨poiRectPoly, "A", "City"⟩] 2
        [⟨"t1", 5, 5⟩, ⟨"t2", 5, 6⟩]).filter (fun r => r.name = "A")).length = 1) := by
  have hrun : poiWorkerRun (fun _ => false) distSq (fun _ _ => 0) ""
      [⟨poiRectPoly, "A", "City"⟩] 2 [⟨"t1", 5, 5⟩, ⟨"t2", 5, 6⟩] =
      [⟨"t1", 5, 5, 0, 0, "A", "City"⟩, ⟨"t2", 5, 6, 1, 0, "A", "City"⟩] := by
    rw [poiWorkerRun_no_cancel _ _ _ _ _ _ (by norm_num),
      poiSelectedEntries_empty_filter]
    simp [poiScanSample1, poiScanSample2]
  rw [hrun]
  constructor
  · simp
  · simp

/-! ### Cancellation: `ephem_worker`, `country_worker`, POI propagation -/

/-- The time-driven sampling loop of `ephem_worker`
(`for (t = jul0; t <= end_jd + 1e-9; t += step_jd)`), indexed by the
iteration count `k` (in exact arithmetic `t = jul0 + k·step_jd`), polling the
cancellation token before each sample and returning the `Cancelled` outcome
(`g_task_return_boolean(task, FALSE)`) when it is set. -/
def ephemGo (cancel : ℕ → Bool) (jul0 stepJd endTol : ℚ) (k : ℕ) :
    Except Unit (List ℚ) :=
  if h : jul0 + k * stepJd ≤ endTol ∧ 0 < stepJd then
    if cancel k then Except.error ()
    else
      match ephemGo cancel jul0 stepJd endTol (k + 1) with
      | Except.error e => Except.error e
      | Except.ok rest => Except.ok ((jul0 + k * stepJd) :: rest)
  else Except.ok []
termination_by (⌊(endTol - jul0) / stepJd⌋ + 1 - k).toNat
decreasing_by
  obtain ⟨h1, h2⟩ := h
  have hq : (k : ℚ) ≤ (endTol - jul0) / stepJd := by
    rw [le_div_iff h2]
    linarith
  have hz : (k : ℤ) ≤ ⌊(endTol - jul0) / stepJd⌋ := Int.le_floor.mpr (by push_cast; exact hq)
  omega

/-- `ephem_worker`: clamp duration and step to at least 1
(`MAX(1, ...)`), then run the time-driven loop from the current Julian date
with the `1e-9`-day tolerance. -/
def ephem_worker (cancel : ℕ → Bool) (jul0 : ℚ) (durationIn stepIn : ℤ) :
    Except Unit (List ℚ) :=
  ephemGo cancel jul0 (((max 1 stepIn : ℤ) : ℚ) / 86400)
    (jul0 + ((max 1 durationIn : ℤ) : ℚ) / 86400 + 1/1000000000) 0

/-- What the streaming consumer receives: the ok-payload of a producer, and
nothing at all from a `Cancelled` producer (`on_ephem_done` /
`on_country_done` / `on_poi_done` return before touching the store on
error). -/
def publishedRows {α : Type} (r : Except Unit (List α)) : List α :=
  match r with
  | Except.ok l => l
  | Except.error _ => []

/-- The POI task propagation: `g_task_set_check_cancellable(task, TRUE)`
makes `g_task_propagate_pointer` re-check the token when the worker
finishes, so a set token suppresses the whole row array. -/
def poiPublished (cancel : ℕ → Bool) (finalPoll : ℕ) (rows : List PoiRow) :
    List PoiRow :=
  if cancel finalPoll then [] else rows

lemma ephemGo_cancelled_from (cancel : ℕ → Bool) (jul0 stepJd endTol : ℚ)
    (k0 : ℕ) (hk0 : cancel k0 = true) (hstep : 0 < stepJd)
    (hpoll : jul0 + k0 * stepJd ≤ endTol) :
    ∀ (n k : ℕ), k0 - k = n → k ≤ k0 →
      ephemGo cancel jul0 stepJd endTol k = Except.error () := by
  intro n
  induction n using Nat.strong_induction_on with
  | _ n ih =>
    intro k hn hk
    have hguard : jul0 + k * stepJd ≤ endTol := by
      have hmul : (k : ℚ) * stepJd ≤ (k0 : ℚ) * stepJd := by
        apply mul_le_mul_of_nonneg_right _ (le_of_lt hstep)
        exact_mod_cast hk
      linarith
    rw [ephemGo, dif_pos ⟨hguard, hstep⟩]
    by_cases hc : cancel k = true
    · rw [if_pos hc]
    · rw [if_neg hc]
      have hkne : k ≠ k0 := fun he => hc (he ▸ hk0)
      have hrec : ephemGo cancel jul0 stepJd endTol (k + 1) = Except.error () :=
        ih (k0 - (k + 1)) (by omega) (k + 1) rfl (by omega)
      rw [hrec]

lemma countryWorkerGo_cancelled (cancel : ℕ → Bool)
    (polys : List (List GeoPoint)) (countries : List String) (selector : String)
    (k0 : ℕ) (hk0 : cancel k0 = true) :
    ∀ (samples : List ToolEphemPoint) (idx : ℕ),
      idx ≤ k0 → k0 < idx + samples.length →
      countryWorkerGo cancel polys countries selector idx samples =
        Except.error () := by
  intro samples
  induction samples with
  | nil =>
    intro idx h1 h2
    simp at h2
    omega
  | cons pt rest ih =>
    intro idx h1 h2
    show (if cancel idx then _ else _) = _
    by_cases hc : cancel idx = true
    · rw [if_pos hc]
    · rw [if_neg hc]
      have hkne : idx ≠ k0 := fun he => hc (he ▸ hk0)
      have hrec := ih (idx + 1) (by omega) (by simp at h2; omega)
      rw [hrec]

/-- C6: when the run's cancellation token is set during the run (some poll
index `k0` that the producer reaches reads it as true), each producer
returns the `Cancelled` outcome at that poll, the in-flight rows are
discarded, and no row reaches any consumer; the POI task is additionally
suppressed at propagation time by the check-cancellable re-check. -/
theorem cancelled_run_publishes_no_rows
    (cancel : ℕ → Bool)
    (hmono : ∀ i j, i ≤ j → cancel i = true → cancel j = true)
    (k0 : ℕ) (hk0 : cancel k0 = true)
    (jul0 : ℚ) (durationIn stepIn : ℤ)
    (hpoll : jul0 + (k0 : ℚ) * (((max 1 stepIn : ℤ) : ℚ) / 86400) ≤
      jul0 + ((max 1 durationIn : ℤ) : ℚ) / 86400 + 1/1000000000)
    (polys : List (List GeoPoint)) (countries : List String) (selector : String)
    (samples : List ToolEphemPoint) (hsp : k0 < samples.length)
    (dist brg : GeoPoint → GeoPoint → ℚ) (filter : String)
    (entries : List PoiEntry) (nthreads : ℕ) :
    ephem_worker cancel jul0 durationIn stepIn = Except.error () ∧
    publishedRows (ephem_worker cancel jul0 durationIn stepIn) = [] ∧
    country_worker cancel polys countries selector samples = Except.error () ∧
    publishedRows (country_worker cancel polys countries selector samples) = [] ∧
    poiPublished cancel samples.length
      (poiWorkerRun cancel dist brg filter entries nthreads samples) = [] := by
  have hstep : 0 < ((max 1 stepIn : ℤ) : ℚ) / 86400 := by
    apply div_pos _ (by norm_num)
    have : (1 : ℤ) ≤ max 1 stepIn := le_max_left 1 stepIn
    exact_mod_cast lt_of_lt_of_le zero_lt_one (by exact_mod_cast this)
  have he : ephem_worker cancel jul0 durationIn stepIn = Except.error () := by
    unfold ephem_worker
    exact ephemGo_cancelled_from cancel jul0 _ _ k0 hk0 hstep hpoll (k0 - 0) 0 rfl
      (Nat.zero_le k0)
  have hcw : country_worker cancel polys countries selector samples =
      Except.error () := by
    unfold country_worker
    exact countryWorkerGo_cancelled cancel polys countries selector k0 hk0 samples 0
      (Nat.zero_le k0) (by omega)
  refine ⟨he, by rw [he]; rfl, hcw, by rw [hcw]; rfl, ?_⟩
  unfold poiPublished
  rw [if_pos (hmono k0 samples.length (le_of_lt hsp) hk0)]

/-- Witness for C6: the token set from the start, a 3 s / 1 s run, and one
sample. -/
theorem cancelled_run_publishes_no_rows_witness :
    (∀ i j : ℕ, i ≤ j → true = true → true = true) ∧
    ((0 : ℚ) + ((0 : ℕ) : ℚ) * (((max 1 (1 : ℤ) : ℤ) : ℚ) / 86400) ≤
      0 + ((max 1 (3 : ℤ) : ℤ) : ℚ) / 86400 + 1/1000000000) ∧
    (0 < ([⟨"t", 0, 0⟩] : List ToolEphemPoint).length) ∧
    (ephem_worker (fun _ => true) 0 3 1 = Except.error () ∧
     publishedRows (ephem_worker (fun _ => true) 0 3 1) = [] ∧
     country_worker (fun _ => true) [] [] "" [⟨"t", 0, 0⟩] = Except.error () ∧
     publishedRows (country_worker (fun _ => true) [] [] "" [⟨"t", 0, 0⟩]) = [] ∧
     poiPublished (fun _ => true) ([(⟨"t", 0, 0⟩ : ToolEphemPoint)]).length
       (poiWorkerRun (fun _ => true) (fun _ _ => 0) (fun _ _ => 0) "" [] 2
         [⟨"t", 0, 0⟩]) = []) :=
  ⟨fun _ _ _ h => h, by norm_num, by decide,
   cancelled_run_publishes_no_rows (fun _ => true) (fun _ _ _ h => h) 0 rfl
     0 3 1 (by norm_num) [] [] "" [⟨"t", 0, 0⟩] (by decide)
     (fun _ _ => 0) (fun _ _ => 0) "" [] 2⟩

/-! ### `points_interest_compute_bounds` (points_interests.c) -/

/-- The `norm_lon` of `points_interests.c` (while-loop form:
`while (lon < -180) lon += 360; while (lon > 180) lon -= 360;`), written in
closed form.  Its range is the closed interval `[-180, 180]`. -/
def normLonW (lon : ℚ) : ℚ :=
  if lon < -180 then lon - 360 * ⌊(lon + 180) / 360⌋
  else if lon > 180 then
    (if lon - 360 * ⌊(lon + 180) / 360⌋ = -180 then 180
     else lon - 360 * ⌊(lon + 180) / 360⌋)
  else lon

/-- The `clamp(v, lo, hi)` helper of `points_interests.c`. -/
def clampC (v lo hi : ℚ) : ℚ := if v < lo then lo else if v > hi then hi else v

/-- The pole-singularity guard on `cos(lat)`:
`if (fabs(coslat) < 1e-6) coslat = (coslat < 0 ? -1e-6 : 1e-6)`. -/
def pibCoslat (c : ℚ) : ℚ :=
  if |c| < 1/1000000 then (if c < 0 then -(1/1000000) else 1/1000000) else c

/-- `dlat = (tile_km / 2) / 111.32`. -/
def pibDlat (tile : ℚ) : ℚ := tile * (1/2) / (11132/100)

/-- `dlon = (tile_km / 2) / (111.32 * coslat)`. -/
def pibDlon (tile c : ℚ) : ℚ := tile * (1/2) / ((11132/100) * pibCoslat c)

/-- The four output bounds of `points_interest_compute_bounds`. -/
structure PoiBounds where
  lat_min : ℚ
  lat_max : ℚ
  lon_min : ℚ
  lon_max : ℚ
deriving Repr, DecidableEq

/-- `points_interest_compute_bounds`: `none` models `FALSE` with the outputs
unwritten.  In the exact rational embedding every input is finite, so of the
C guard (`!isfinite(...) || tile_km <= 0`) only `tile_km ≤ 0` remains;
`coslat0` stands for the transcendental `cos(center_lat·π/180)` and is passed
in as a parameter, with the source's pole guard applied to it.  A dateline
swap keeps `lon_min ≤ lon_max`. -/
def points_interest_compute_bounds (center_lat center_lon tile_km coslat0 : ℚ) :
    Option PoiBounds :=
  if tile_km ≤ 0 then none
  else if normLonW (center_lon - pibDlon tile_km coslat0) >
      normLonW (center_lon + pibDlon tile_km coslat0) then
    some ⟨clampC (center_lat - pibDlat tile_km) (-90) 90,
          clampC (center_lat + pibDlat tile_km) (-90) 90,
          normLonW (center_lon + pibDlon tile_km coslat0),
          normLonW (center_lon - pibDlon tile_km coslat0)⟩
  else
    some ⟨clampC (center_lat - pibDlat tile_km) (-90) 90,
          clampC (center_lat + pibDlat tile_km) (-90) 90,
          normLonW (center_lon - pibDlon tile_km coslat0),
          normLonW (center_lon + pibDlon tile_km coslat0)⟩

lemma normLonW_mem (lon : ℚ) : -180 ≤ normLonW lon ∧ normLonW lon ≤ 180 := by
  have h1 := Int.floor_le ((lon + 180) / 360)
  have h2 := Int.lt_floor_add_one ((lon + 180) / 360)
  have hlo : -180 ≤ lon - 360 * ⌊(lon + 180) / 360⌋ := by nlinarith
  have hhi : lon - 360 * ⌊(lon + 180) / 360⌋ < 180 := by nlinarith
  unfold normLonW
  split_ifs <;> constructor <;> linarith

lemma clampC_mono {x y lo hi : ℚ} (hlh : lo ≤ hi) (h : x ≤ y) :
    clampC x lo hi ≤ clampC y lo hi := by
  unfold clampC; split_ifs <;> linarith

lemma clampC_mem {v lo hi : ℚ} (hlh : lo ≤ hi) :
    lo ≤ clampC v lo hi ∧ clampC v lo hi ≤ hi := by
  unfold clampC; split_ifs <;> constructor <;> linarith

/-- C10: `points_interest_compute_bounds` fails (writing nothing) exactly when
`tile_km ≤ 0` (non-finite inputs have no rational counterpart); on success the
bounds satisfy `-90 ≤ lat_min ≤ lat_max ≤ 90` and
`-180 ≤ lon_min ≤ lon_max ≤ 180`, so the appended POI rectangle never wraps
the antimeridian. -/
theorem compute_bounds_spec (center_lat center_lon tile_km coslat0 : ℚ) :
    (points_interest_compute_bounds center_lat center_lon tile_km coslat0 = none ↔
      tile_km ≤ 0) ∧
    ∀ b : PoiBounds,
      points_interest_compute_bounds center_lat center_lon tile_km coslat0 =
        some b →
      -90 ≤ b.lat_min ∧ b.lat_min ≤ b.lat_max ∧ b.lat_max ≤ 90 ∧
      -180 ≤ b.lon_min ∧ b.lon_min ≤ b.lon_max ∧ b.lon_max ≤ 180 := by
  unfold points_interest_compute_bounds
  split_ifs with h0 h1
  · exact ⟨by simp [h0], fun b hb => by simp at hb⟩
  · refine ⟨by simp [h0], fun b hb => ?_⟩
    obtain rfl : (⟨clampC (center_lat - pibDlat tile_km) (-90) 90,
        clampC (center_lat + pibDlat tile_km) (-90) 90,
        normLonW (center_lon + pibDlon tile_km coslat0),
        normLonW (center_lon - pibDlon tile_km coslat0)⟩ : PoiBounds) = b :=
      Option.some_injective _ hb
    have hdlat : 0 < pibDlat tile_km := by
      unfold pibDlat
      push_neg at h0
      positivity
    refine ⟨(clampC_mem (by norm_num)).1,
      clampC_mono (by norm_num) (by linarith),
      (clampC_mem (by norm_num)).2,
      (normLonW_mem _).1, le_of_lt h1, (normLonW_mem _).2⟩
  · refine ⟨by simp [h0], fun b hb => ?_⟩
    obtain rfl : (⟨clampC (center_lat - pibDlat tile_km) (-90) 90,
        clampC (center_lat + pibDlat tile_km) (-90) 90,
        normLonW (center_lon - pibDlon tile_km coslat0),
        normLonW (center_lon + pibDlon tile_km coslat0)⟩ : PoiBounds) = b :=
      Option.some_injective _ hb
    have hdlat : 0 < pibDlat tile_km := by
      unfold pibDlat
      push_neg at h0
      positivity
    push_neg at h1
    refine ⟨(clampC_mem (by norm_num)).1,
      clampC_mono (by norm_num) (by linarith),
      (clampC_mem (by norm_num)).2,
      (normLonW_mem _).1, h1, (normLonW_mem _).2⟩

/-- Witness for C10 at center `(0, 0)`, tile 10 km, `cos` value 1. -/
theorem compute_bounds_spec_witness :
    (points_interest_compute_bounds 0 0 10 1 = none ↔ (10 : ℚ) ≤ 0) ∧
    (points_interest_compute_bounds 0 0 10 1 =
      some ⟨-(125/2783), 125/2783, -(125/2783), 125/2783⟩) ∧
    (-90 ≤ -(125/2783 : ℚ) ∧ -(125/2783 : ℚ) ≤ 125/2783 ∧ (125/2783 : ℚ) ≤ 90 ∧
      -180 ≤ -(125/2783 : ℚ) ∧ -(125/2783 : ℚ) ≤ 125/2783 ∧ (125/2783 : ℚ) ≤ 180) :=
  ⟨(compute_bounds_spec 0 0 10 1).1,
   by norm_num [points_interest_compute_bounds, normLonW, clampC, pibCoslat,
     pibDlat, pibDlon],
   (compute_bounds_spec 0 0 10 1).2 ⟨-(125/2783), 125/2783, -(125/2783), 125/2783⟩
     (by norm_num [points_interest_compute_bounds, normLonW, clampC, pibCoslat,
       pibDlat, pibDlon])⟩

/-! ### Export writer: `csv_escape`, `sub_window_ephemeris_export_poi` -/

/-- `csv_escape`: leave the string alone when it holds none of `, " CR LF`
(`strpbrk` miss); otherwise wrap it in double quotes with every embedded
quote doubled. -/
def csvEscape (s : List Char) : List Char :=
  if s.any (fun c => c = ',' ∨ c = '"' ∨ c = '\n' ∨ c = '\r') then
    '"' :: (s.flatMap fun c => if c = '"' then ['"', '"'] else [c]) ++ ['"']
  else s

/-- Fixed-point rendering of `g_ascii_formatd(..., "%.pf", q)`: '.' decimal
separator, exactly `p` fractional digits, round half up on the magnitude
(decimal digits via `Nat.toDigits 10`). -/
def fmtFixed (p : ℕ) (q : ℚ) : List Char :=
  (if q < 0 then ['-'] else []) ++
  Nat.toDigits 10 ((⌊|q| * (10 ^ p : ℕ) + 1/2⌋).toNat / 10 ^ p) ++
  '.' :: (List.replicate
      (p - (Nat.toDigits 10 ((⌊|q| * (10 ^ p : ℕ) + 1/2⌋).toNat % 10 ^ p)).length)
      '0' ++
    Nat.toDigits 10 ((⌊|q| * (10 ^ p : ℕ) + 1/2⌋).toNat % 10 ^ p))

/-- A row of the POI view as read back by the exporter: the time, direction,
name and type columns are strings; latitude, longitude and range are
doubles. -/
structure ExportRow where
  time : List Char
  lat : ℚ
  lon : ℚ
  range : ℚ
  dir : List Char
  name : List Char
  ptype : List Char

/-- The UTF-8 byte-order mark `EF BB BF` prepended in CSV mode. -/
def bomBytes : List Char := ['\xEF', '\xBB', '\xBF']

/-- The CSV header line. -/
def exportHeaderCsv : List Char :=
  "Time,Latitude,Longitude,Range_km,Direction,Name,Type\n".toList

/-- The TXT header line. -/
def exportHeaderTxt : List Char :=
  "Time\tLatitude\tLongitude\tRange (km)\tDirection\tName\tType\n".toList

/-- One CSV data line: escaped string fields, `%.5f` latitude/longitude,
`%.3f` range, comma separators, `\n` terminator. -/
def csvRowLine (r : ExportRow) : List Char :=
  csvEscape r.time ++ ',' :: fmtFixed 5 r.lat ++ ',' :: fmtFixed 5 r.lon ++
  ',' :: fmtFixed 3 r.range ++ ',' :: csvEscape r.dir ++
  ',' :: csvEscape r.name ++ ',' :: csvEscape r.ptype ++ ['\n']

/-- One TXT data line: raw fields, tab separators, `\n` terminator, no
quoting. -/
def txtRowLine (r : ExportRow) : List Char :=
  r.time ++ '\t' :: fmtFixed 5 r.lat ++ '\t' :: fmtFixed 5 r.lon ++
  '\t' :: fmtFixed 3 r.range ++ '\t' :: r.dir ++
  '\t' :: r.name ++ '\t' :: r.ptype ++ ['\n']

/-- `sub_window_ephemeris_export_poi`: in CSV mode start from the BOM and
CSV header, in TXT mode the TXT header only, then append one line per row in
model order (the `GString` accumulation). -/
def sub_window_ephemeris_export_poi (csv : Bool) (rows : List ExportRow) :
    List Char :=
  rows.foldl
    (fun acc r => acc ++ (if csv then csvRowLine r else txtRowLine r))
    ((if csv then bomBytes else []) ++
      (if csv then exportHeaderCsv else exportHeaderTxt))

lemma foldl_append_flatMap {α β : Type} (f : α → List β) :
    ∀ (rows : List α) (init : List β),
      rows.foldl (fun acc r => acc ++ f r) init = init ++ rows.flatMap f := by
  intro rows
  induction rows with
  | nil => intro init; simp
  | cons r rest ih =>
    intro init
    show List.foldl _ (init ++ f r) rest = _
    rw [ih (init ++ f r)]
    simp

/-- C8: the CSV export starts with the bytes `EF BB BF`, followed by the
exact header `Time,Latitude,Longitude,Range_km,Direction,Name,Type` and one
CSV line per row (string fields escaped, `%.5f` coordinates, `%.3f` range,
`\n` terminators); the TXT export has no BOM, its own tab-separated header,
and unquoted tab-separated lines.  `csv_escape` quotes (doubling embedded
quotes) exactly the fields containing a comma, double quote, CR or LF.  The
formatter uses `.` as decimal separator, e.g. `%.5f` of `12.345` is
`"12.34500"` and `%.3f` of `-5/8` is `"-0.625"`. -/
theorem export_poi_format (rows : List ExportRow) (s : List Char) :
    sub_window_ephemeris_export_poi true rows =
      bomBytes ++ exportHeaderCsv ++ rows.flatMap csvRowLine ∧
    (sub_window_ephemeris_export_poi true rows).take 3 = ['\xEF', '\xBB', '\xBF'] ∧
    sub_window_ephemeris_export_poi false rows =
      exportHeaderTxt ++ rows.flatMap txtRowLine ∧
    ((∃ c ∈ s, c = ',' ∨ c = '"' ∨ c = '\n' ∨ c = '\r') →
      csvEscape s =
        '"' :: (s.flatMap fun c => if c = '"' then ['"', '"'] else [c]) ++ ['"']) ∧
    ((∀ c ∈ s, ¬(c = ',' ∨ c = '"' ∨ c = '\n' ∨ c = '\r')) → csvEscape s = s) ∧
    fmtFixed 5 (12345 / 1000) = "12.34500".toList ∧
    fmtFixed 3 (-5 / 8) = "-0.625".toList := by
  have hcsv : sub_window_ephemeris_export_poi true rows =
      bomBytes ++ exportHeaderCsv ++ rows.flatMap csvRowLine := by
    unfold sub_window_ephemeris_export_poi
    rw [show ((if true then bomBytes else []) ++
        (if true then exportHeaderCsv else exportHeaderTxt)) =
        bomBytes ++ exportHeaderCsv from rfl]
    rw [show (fun (acc : List Char) (r : ExportRow) =>
        acc ++ (if true then csvRowLine r else txtRowLine r)) =
        (fun acc r => acc ++ csvRowLine r) from rfl]
    rw [foldl_append_flatMap csvRowLine rows (bomBytes ++ exportHeaderCsv)]
  refine ⟨hcsv, ?_, ?_, ?_, ?_, ?_, ?_⟩
  · rw [hcsv]
    rfl
  · unfold sub_window_ephemeris_export_poi
    rw [show ((if false then bomBytes else []) ++
        (if false then exportHeaderCsv else exportHeaderTxt)) =
        exportHeaderTxt from rfl]
    rw [show (fun (acc : List Char) (r : ExportRow) =>
        acc ++ (if false then csvRowLine r else txtRowLine r)) =
        (fun acc r => acc ++ txtRowLine r) from rfl]
    rw [foldl_append_flatMap txtRowLine rows exportHeaderTxt]
  · intro hex
    unfold csvEscape
    rw [if_pos (List.any_eq_true.mpr
      (by
        obtain ⟨c, hc, hor⟩ := hex
        exact ⟨c, hc, by simpa using hor⟩))]
  · intro hall
    unfold csvEscape
    have hnone : ¬(s.any fun c =>
        decide (c = ',' ∨ c = '"' ∨ c = '\n' ∨ c = '\r')) = true := by
      rw [List.any_eq_true]
      rintro ⟨c, hc, hor⟩
      exact hall c hc (by simpa using hor)
    rw [if_neg hnone]
  · unfold fmtFixed
    rw [if_neg (by norm_num), show |(12345 / 1000 : ℚ)| = 12345 / 1000 from
      abs_of_nonneg (by norm_num)]
    rw [show ⌊(12345 / 1000 : ℚ) * ((10 ^ 5 : ℕ) : ℚ) + 1/2⌋ = 1234500 by norm_num]
    decide
  · unfold fmtFixed
    rw [if_pos (by norm_num), show |(-5 / 8 : ℚ)| = 5 / 8 from by
      rw [abs_of_nonpos (by norm_num)]; norm_num]
    rw [show ⌊(5 / 8 : ℚ) * ((10 ^ 3 : ℕ) : ℚ) + 1/2⌋ = 625 by norm_num]
    decide

/-- Witness for C8: an empty row list and the field `"a,b"` which must be
quoted. -/
theorem export_poi_format_witness :
    (∃ c ∈ ("a,b".toList : List Char), c = ',' ∨ c = '"' ∨ c = '\n' ∨ c = '\r') ∧
    csvEscape "a,b".toList =
      '"' :: ("a,b".toList.flatMap fun c => if c = '"' then ['"', '"'] else [c])
        ++ ['"'] :=
  ⟨⟨',', by decide, Or.inl rfl⟩,
   (export_poi_format [] "a,b".toList).2.2.2.1 ⟨',', by decide, Or.inl rfl⟩⟩

/-! ### Timestamp parsing: `strptime_win` / `tool_list_from_model` -/

/-- The whitespace class skipped by `sscanf`'s `%d` and blank directives. -/
def isSpaceC (c : Char) : Bool :=
  c = ' ' ∨ c = '\t' ∨ c = '\n' ∨ c = '\r' ∨ c = '\x0b' ∨ c = '\x0c'

/-- Value of a digit run (most significant first) as accumulated by `%d`. -/
def digitsVal (ds : List Char) : ℤ :=
  ds.foldl (fun n c => n * 10 + ((c.toNat : ℤ) - 48)) 0

/-- The digit-run part of a `%d` conversion after the optional sign. -/
def scanIntAfterSign (sgn : ℤ) (s2 : List Char) : Option (ℤ × List Char) :=
  if s2.takeWhile Char.isDigit = [] then none
  else some (sgn * digitsVal (s2.takeWhile Char.isDigit), s2.dropWhile Char.isDigit)

/-- One `%d` conversion of `sscanf`: skip whitespace, optional sign, then a
nonempty digit run; fail otherwise. -/
def scanInt (s : List Char) : Option (ℤ × List Char) :=
  scanIntAfterSign
    (if (s.dropWhile isSpaceC).head? = some '-' then -1 else 1)
    (if (s.dropWhile isSpaceC).head? = some '-' ∨
        (s.dropWhile isSpaceC).head? = some '+'
     then (s.dropWhile isSpaceC).tail else s.dropWhile isSpaceC)

/-- A literal (non-whitespace) directive of the `sscanf` format. -/
def expectChar (c : Char) (s : List Char) : Option (List Char) :=
  match s with
  | x :: rest => if x = c then some rest else none
  | [] => none

/-- `strptime_win`'s parse via `sscanf(s, "%d-%d-%d %d:%d:%d", ...)`
(`Logic_Country_Filter.c`, Windows shim): six `%d` conversions joined by the
literal separators; trailing input is ignored; `none` models the `NULL`
return. -/
def scanTimestamp (s : List Char) : Option (ℤ × ℤ × ℤ × ℤ × ℤ × ℤ) := do
  let (y, r1) ← scanInt s
  let r2 ← expectChar '-' r1
  let (mo, r3) ← scanInt r2
  let r4 ← expectChar '-' r3
  let (d, r5) ← scanInt r4
  let (h, r6) ← scanInt r5
  let r7 ← expectChar ':' r6
  let (mi, r8) ← scanInt r7
  let r9 ← expectChar ':' r8
  let (sec, _) ← scanInt r9
  pure (y, mo, d, h, mi, sec)

/-- Gregorian leap-year predicate. -/
def isLeapYear (y : ℤ) : Bool := (y % 4 = 0 ∧ ¬(y % 100 = 0)) ∨ y % 400 = 0

/-- Days before the start of month `m` in a non-leap year (1-based). -/
def cumulativeMonthDays (m : ℤ) : ℤ :=
  if m ≤ 1 then 0 else if m = 2 then 31 else if m = 3 then 59
  else if m = 4 then 90 else if m = 5 then 120 else if m = 6 then 151
  else if m = 7 then 181 else if m = 8 then 212 else if m = 9 then 243
  else if m = 10 then 273 else if m = 11 then 304 else 334

/-- Leap years strictly before year `y` (floor divisions). -/
def leapsBefore (y : ℤ) : ℤ :=
  (y - 1).fdiv 4 - (y - 1).fdiv 100 + (y - 1).fdiv 400

/-- Modelled from the spec: the external libc `timegm` (`_mkgmtime` on
Windows) is not part of this repository; per the spec the parser "returns
seconds-since-Unix-epoch in UTC", so broken-down UTC time is converted with
standard proleptic Gregorian day counting; an out-of-range `mday` (such as
the zeroed `tm`'s `mday = 0`) follows `timegm`'s arithmetic
normalization. -/
def timegmModel (Y Mo D h mi s : ℤ) : ℤ :=
  86400 * (365 * (Y - 1970) + (leapsBefore Y - leapsBefore 1970) +
    cumulativeMonthDays Mo + (if 2 < Mo ∧ isLeapYear Y = true then 1 else 0) +
    (D - 1)) +
  3600 * h + 60 * mi + s

/-- The per-row timestamp computed by `tool_list_from_model`: the `tm` is
zero-initialized, `strptime`'s return value is ignored, and `timegm` is
applied unconditionally — a failed parse therefore yields the timestamp of
the zeroed `tm` (1900-01-00, i.e. 1899-12-31) instead of an error. -/
def tool_timestamp_of_string (s : List Char) : ℤ :=
  match scanTimestamp s with
  | some (y, mo, d, h, mi, sec) => timegmModel y mo d h mi sec
  | none => timegmModel 1900 1 0 0 0 0

/-- The spec's literal timestamp shape `"YYYY-MM-DD HH:MM:SS"`: exactly 19
characters, digits in the fixed positions, `-`, blank and `:` separators. -/
def strictTimestampFormat (s : List Char) : Bool :=
  match s with
  | [y1, y2, y3, y4, c1, m1, m2, c2, d1, d2, c3, h1, h2, c4, i1, i2, c5, s1, s2] =>
    y1.isDigit && y2.isDigit && y3.isDigit && y4.isDigit && c1 = '-' &&
    m1.isDigit && m2.isDigit && c2 = '-' && d1.isDigit && d2.isDigit &&
    c3 = ' ' && h1.isDigit && h2.isDigit && c4 = ':' && i1.isDigit &&
    i2.isDigit && c5 = ':' && s1.isDigit && s2.isDigit
  | _ => false

/-- Counterexample to C5 as stated: the deviating string `"2024-1-1 0:0:0"`
(not zero-padded, so not of the form `YYYY-MM-DD HH:MM:SS`) is accepted by
the parser, and the non-matching string `"garbage"` produces no error
either — the zero-initialized `tm` silently yields the 1899-12-31 timestamp
`-2209075200`. -/
theorem timestamp_parser_counterexample :
    strictTimestampFormat ("2024-1-1 0:0:0".toList) = false ∧
    (scanTimestamp ("2024-1-1 0:0:0".toList)).isSome = true ∧
    (scanTimestamp ("garbage".toList)).isSome = false ∧
    tool_timestamp_of_string ("garbage".toList) = -2209075200 := by
  refine ⟨?_, ?_, ?_, ?_⟩ <;> decide

/-! ### Strict-format acceptance of the timestamp parser -/

/-- The decimal digit character of `k mod 10`. -/
def digitChar (k : ℕ) : Char := Char.ofNat (48 + k % 10)

/-- Two-digit zero-padded rendering (tens, units). -/
def pad2 (n : ℕ) : List Char := [digitChar (n / 10), digitChar n]

/-- Four-digit zero-padded rendering. -/
def pad4 (n : ℕ) : List Char :=
  [digitChar (n / 1000), digitChar (n / 100), digitChar (n / 10), digitChar n]

/-- A strictly formatted `"YYYY-MM-DD HH:MM:SS"` timestamp (the spec's
shape). -/
def fmtTimestamp (Y Mo D h mi s : ℕ) : List Char :=
  pad4 Y ++ '-' :: (pad2 Mo ++ '-' :: (pad2 D ++ ' ' ::
    (pad2 h ++ ':' :: (pad2 mi ++ ':' :: pad2 s))))

lemma toNat_ofNat_digit (m : ℕ) (hm : m < 10) :
    (Char.ofNat (48 + m)).toNat = 48 + m := by
  interval_cases m <;> decide

lemma digitChar_isDigit (k : ℕ) : (digitChar k).isDigit = true := by
  unfold digitChar
  have h : k % 10 < 10 := Nat.mod_lt _ (by norm_num)
  revert h
  generalize k % 10 = m
  intro h
  interval_cases m <;> decide

lemma digitChar_val (k : ℕ) : ((digitChar k).toNat : ℤ) - 48 = ((k % 10 : ℕ) : ℤ) := by
  unfold digitChar
  have h : k % 10 < 10 := Nat.mod_lt _ (by norm_num)
  revert h
  generalize k % 10 = m
  intro h
  rw [toNat_ofNat_digit m h]
  push_cast
  ring

lemma not_space_of_digit {c : Char} (h : c.isDigit = true) : isSpaceC c = false := by
  by_contra hcon
  have htrue : isSpaceC c = true := by
    cases hsp : isSpaceC c
    · exact absurd hsp hcon
    · rfl
  unfold isSpaceC at htrue
  simp only [decide_eq_true_eq] at htrue
  rcases htrue with rfl | rfl | rfl | rfl | rfl | rfl <;> exact absurd h (by decide)

lemma ne_of_digit_minus {c : Char} (h : c.isDigit = true) : c ≠ '-' :=
  fun he => absurd h (by rw [he]; decide)

lemma ne_of_digit_plus {c : Char} (h : c.isDigit = true) : c ≠ '+' :=
  fun he => absurd h (by rw [he]; decide)

lemma digits_take_drop (rest : List Char)
    (hrest : ∀ c, rest.head? = some c → c.isDigit = false) :
    ∀ ds : List Char, (∀ c ∈ ds, c.isDigit = true) →
      (ds ++ rest).takeWhile Char.isDigit = ds ∧
      (ds ++ rest).dropWhile Char.isDigit = rest := by
  intro ds
  induction ds with
  | nil =>
    intro _
    cases rest with
    | nil => exact ⟨rfl, rfl⟩
    | cons r t =>
      constructor
      · rw [List.nil_append, List.takeWhile_cons, if_neg (by simp [hrest r rfl])]
      · rw [List.nil_append, List.dropWhile_cons, if_neg (by simp [hrest r rfl])]
  | cons d ds' ih =>
    intro hds
    have hd : d.isDigit = true := hds d (List.mem_cons_self _ _)
    obtain ⟨ht, hdp⟩ := ih fun c hc => hds c (List.mem_cons_of_mem _ hc)
    constructor
    · rw [List.cons_append, List.takeWhile_cons, if_pos hd, ht]
    · rw [List.cons_append, List.dropWhile_cons, if_pos hd, hdp]

lemma scanInt_digits (ds rest : List Char) (hne : ds ≠ [])
    (hds : ∀ c ∈ ds, c.isDigit = true)
    (hrest : ∀ c, rest.head? = some c → c.isDigit = false) :
    scanInt (ds ++ rest) = some (digitsVal ds, rest) := by
  obtain ⟨d, ds', rfl⟩ : ∃ d ds', ds = d :: ds' := by
    cases ds with
    | nil => exact absurd rfl hne
    | cons d ds' => exact ⟨d, ds', rfl⟩
  have hd : d.isDigit = true := hds d (List.mem_cons_self _ _)
  have hdrop : ((d :: ds') ++ rest).dropWhile isSpaceC = (d :: ds') ++ rest := by
    rw [List.cons_append, List.dropWhile_cons,
      if_neg (by simp [not_space_of_digit hd])]
  unfold scanInt
  rw [hdrop, List.cons_append, List.head?_cons]
  have hm : ¬(some d = some '-') := fun he => ne_of_digit_minus hd (Option.some.inj he)
  have hp : ¬(some d = some '-' ∨ some d = some '+') := by
    rintro (he | he)
    · exact hm he
    · exact ne_of_digit_plus hd (Option.some.inj he)
  rw [if_neg hm, if_neg hp]
  obtain ⟨ht, hdp⟩ := digits_take_drop rest hrest (d :: ds') hds
  rw [List.cons_append] at ht hdp
  unfold scanIntAfterSign
  rw [ht, hdp, if_neg (List.cons_ne_nil d ds'), one_mul]

lemma scanInt_cons_space (l : List Char) : scanInt (' ' :: l) = scanInt l := by
  have h : (' ' :: l).dropWhile isSpaceC = l.dropWhile isSpaceC := by
    rw [List.dropWhile_cons, if_pos (by decide)]
  unfold scanInt
  rw [h]

lemma expectChar_cons_self (c : Char) (l : List Char) :
    expectChar c (c :: l) = some l := by
  show (if c = c then some l else none) = some l
  rw [if_pos rfl]

lemma pad2_digits (n : ℕ) : ∀ c ∈ pad2 n, c.isDigit = true := by
  intro c hc
  simp only [pad2, List.mem_cons, List.not_mem_nil, or_false] at hc
  rcases hc with rfl | rfl <;> exact digitChar_isDigit _

lemma pad4_digits (n : ℕ) : ∀ c ∈ pad4 n, c.isDigit = true := by
  intro c hc
  simp only [pad4, List.mem_cons, List.not_mem_nil, or_false] at hc
  rcases hc with rfl | rfl | rfl | rfl <;> exact digitChar_isDigit _

lemma pad2_ne_nil (n : ℕ) : pad2 n ≠ [] := by simp [pad2]

lemma pad4_ne_nil (n : ℕ) : pad4 n ≠ [] := by simp [pad4]

lemma digitsVal_pad2 (n : ℕ) (hn : n ≤ 99) : digitsVal (pad2 n) = (n : ℤ) := by
  unfold digitsVal pad2
  simp only [List.foldl_cons, List.foldl_nil]
  rw [digitChar_val (n / 10), digitChar_val n]
  have h1 : n / 10 % 10 = n / 10 := Nat.mod_eq_of_lt (by omega)
  rw [h1]
  push_cast
  omega

lemma digitsVal_pad4 (n : ℕ) (hn : n ≤ 9999) : digitsVal (pad4 n) = (n : ℤ) := by
  unfold digitsVal pad4
  simp only [List.foldl_cons, List.foldl_nil]
  rw [digitChar_val (n / 1000), digitChar_val (n / 100), digitChar_val (n / 10),
    digitChar_val n]
  have h1 : n / 1000 % 10 = n / 1000 := Nat.mod_eq_of_lt (by omega)
  rw [h1]
  push_cast
  omega

lemma head_sep_not_digit {sep : Char} (hsep : sep.isDigit = false) (l : List Char) :
    ∀ c, (sep :: l).head? = some c → c.isDigit = false := by
  intro c hc
  rw [List.head?_cons] at hc
  obtain rfl := Option.some.inj hc
  exact hsep

lemma head_nil_not_digit :
    ∀ c : Char, ([] : List Char).head? = some c → c.isDigit = false := by
  intro c hc
  rw [List.head?_nil] at hc
  cases hc

lemma scanTimestamp_fmt (Y Mo D h mi s : ℕ) :
    scanTimestamp (fmtTimestamp Y Mo D h mi s) =
      some (digitsVal (pad4 Y), digitsVal (pad2 Mo), digitsVal (pad2 D),
            digitsVal (pad2 h), digitsVal (pad2 mi), digitsVal (pad2 s)) := by
  have h6 : scanInt (pad2 s) = some (digitsVal (pad2 s), ([] : List Char)) := by
    have h0 := scanInt_digits (pad2 s) [] (pad2_ne_nil s) (pad2_digits s)
      head_nil_not_digit
    rwa [List.append_nil] at h0
  unfold scanTimestamp fmtTimestamp
  rw [scanInt_digits (pad4 Y) _ (pad4_ne_nil Y) (pad4_digits Y)
    (head_sep_not_digit (by decide) _)]
  simp only [Option.bind_eq_bind, Option.some_bind]
  rw [expectChar_cons_self]
  simp only [Option.some_bind]
  rw [scanInt_digits (pad2 Mo) _ (pad2_ne_nil Mo) (pad2_digits Mo)
    (head_sep_not_digit (by decide) _)]
  simp only [Option.some_bind]
  rw [expectChar_cons_self]
  simp only [Option.some_bind]
  rw [scanInt_digits (pad2 D) _ (pad2_ne_nil D) (pad2_digits D)
    (head_sep_not_digit (by decide) _)]
  simp only [Option.some_bind]
  rw [scanInt_cons_space,
    scanInt_digits (pad2 h) _ (pad2_ne_nil h) (pad2_digits h)
      (head_sep_not_digit (by decide) _)]
  simp only [Option.some_bind]
  rw [expectChar_cons_self]
  simp only [Option.some_bind]
  rw [scanInt_digits (pad2 mi) _ (pad2_ne_nil mi) (pad2_digits mi)
    (head_sep_not_digit (by decide) _)]
  simp only [Option.some_bind]
  rw [expectChar_cons_self]
  simp only [Option.some_bind]
  rw [h6]
  simp only [Option.some_bind, Option.pure_def]

/-- C5 (amended): the timestamp parser of `tool_list_from_model` accepts
every strictly formatted `"YYYY-MM-DD HH:MM:SS"` string and the row's
timestamp is then `timegm` of the parsed fields — seconds since the Unix
epoch in UTC for valid dates. It does NOT fail on a deviation: `sscanf`'s
`%d` is lenient (see the counterexample for an unpadded accepted string),
and when the scan matches nothing at all the return value is ignored and
the zero-initialized `tm` silently yields `timegm(1900-01-00 00:00:00)` =
`-2209075200` instead of an error. -/
theorem timestamp_parser_amended (Y Mo D h mi s : ℕ)
    (hY : Y ≤ 9999) (hMo : Mo ≤ 99) (hD : D ≤ 99)
    (hh : h ≤ 99) (hmi : mi ≤ 99) (hs : s ≤ 99) :
    scanTimestamp (fmtTimestamp Y Mo D h mi s) =
      some ((Y : ℤ), (Mo : ℤ), (D : ℤ), (h : ℤ), (mi : ℤ), (s : ℤ)) ∧
    tool_timestamp_of_string (fmtTimestamp Y Mo D h mi s) =
      timegmModel Y Mo D h mi s ∧
    (∀ t, scanTimestamp t = none →
      tool_timestamp_of_string t = timegmModel 1900 1 0 0 0 0) ∧
    tool_timestamp_of_string ("2024-05-04 10:20:30".toList) = 1714818030 ∧
    timegmModel 1900 1 0 0 0 0 = -2209075200 := by
  have hscan : scanTimestamp (fmtTimestamp Y Mo D h mi s) =
      some ((Y : ℤ), (Mo : ℤ), (D : ℤ), (h : ℤ), (mi : ℤ), (s : ℤ)) := by
    rw [scanTimestamp_fmt, digitsVal_pad4 Y hY, digitsVal_pad2 Mo hMo,
      digitsVal_pad2 D hD, digitsVal_pad2 h hh, digitsVal_pad2 mi hmi,
      digitsVal_pad2 s hs]
  refine ⟨hscan, ?_, ?_, ?_, ?_⟩
  · unfold tool_timestamp_of_string
    rw [hscan]
  · intro t ht
    unfold tool_timestamp_of_string
    rw [ht]
  · decide
  · decide

theorem timestamp_parser_amended_witness :
    2024 ≤ 9999 ∧ 5 ≤ 99 ∧ 4 ≤ 99 ∧ 10 ≤ 99 ∧ 20 ≤ 99 ∧ 30 ≤ 99 ∧
    scanTimestamp (fmtTimestamp 2024 5 4 10 20 30) =
      some ((2024 : ℤ), (5 : ℤ), (4 : ℤ), (10 : ℤ), (20 : ℤ), (30 : ℤ)) :=
  ⟨by decide, by decide, by decide, by decide, by decide, by decide,
   (timestamp_parser_amended 2024 5 4 10 20 30 (by decide) (by decide)
     (by decide) (by decide) (by decide) (by decide)).1⟩

end OGpredict
